import Mathlib

/-!
CANMessageParser: ISO-TP frame decoding and multi-frame reassembly

A shallow embedding of `src/CANMessageParser.h` and `src/CANMessageParser.cpp`.

* Machine integers are natural numbers.  A `uint8_t` holds a value below 256 and a
  `uint16_t` a value below 65536; where the C++ arithmetic can leave that range
  (the 16-bit subtraction and the `+=` of the Consecutive Frame branch) the
  reduction modulo `2 ^ 16` is written out.
* `std::vector<uint8_t>` is `List Nat`.
* `std::map<uint16_t, Message>` is a function from keys to optional sessions:
  `find` is application, `erase` and `operator[]` are the updates below.
* `std::cout` / `std::cerr` are modelled by the list of calls made to
  `proceedMessage` and `printErrorMessage`, in program order.
* A read outside a vector (undefined behaviour in C++) makes the decoder return
  `none`.
* A text line is a list of characters; `std::stoul` is modelled with its library
  semantics and a thrown exception is an `Except.error`.
-/

namespace CANMessageParser

/-! ## Constants and data model (`CANMessageParser.h`) -/

/-- Maximum number of data bytes of a CAN frame (`CAN_MAX_DATA`). -/
abbrev CAN_MAX_DATA : Nat := 8

/-- Message bytes carried by a First Frame (`FF_PAYLOAD = CAN_MAX_DATA - 2`). -/
abbrev FF_PAYLOAD : Nat := CAN_MAX_DATA - 2

/-- Message bytes carried by a Consecutive Frame (`CF_PAYLOAD = CAN_MAX_DATA - 1`). -/
abbrev CF_PAYLOAD : Nat := CAN_MAX_DATA - 1

/-- Frame kinds (`enum class FrameType`). -/
inductive FrameType where
  | SF
  | FF
  | CF
  | FC
  | UNKNOWN
deriving DecidableEq, Repr

/-- Reassembly session (`struct Message`). -/
structure Message where
  /-- CAN identifier of the stream (`uint16_t ID`). -/
  ID : Nat
  /-- Message data collected so far (`messageBuffer`). -/
  messageBuffer : List Nat
  /-- Total message length (`uint16_t length`). -/
  length : Nat
  /-- Number of message bytes already received (`uint16_t received`). -/
  received : Nat
  /-- Expected sequence number of the next CF frame (`uint8_t next`). -/
  next : Nat
deriving DecidableEq, Repr

/-- The state written by `Message::reset`, which is also what the constructor
`Message()` builds. -/
def Message.new : Message :=
  { ID := 0, messageBuffer := [], length := 0, received := 0, next := 0 }

/-- Append at most `length` bytes of `data` to the buffer (`Message::appendData`):
`length` is first clamped to `data.size()` converted to `uint16_t`. -/
def Message.appendData (m : Message) (data : List Nat) (length : Nat) : Message :=
  let length := min length (data.length % 65536)
  { m with messageBuffer := m.messageBuffer ++ data.take length }

/-- Decoded frame (`struct CanFrame`). -/
structure CanFrame where
  /-- CAN identifier (`uint16_t ID`). -/
  ID : Nat
  /-- Kind of the frame. -/
  frameType : FrameType
  /-- PCI byte. -/
  pci : Nat
  /-- SF length or FF total length (`uint16_t payloadLength`). -/
  payloadLength : Nat
  /-- Sequence number, CF only. -/
  sequenceNumber : Nat
  /-- Flow status, FC only. -/
  fcStatus : Nat
  /-- Block size, FC only. -/
  fcBlockSize : Nat
  /-- Separation time, FC only. -/
  fcSTmin : Nat
  /-- Frame data bytes (0..8). -/
  data : List Nat
  /-- Message data only. -/
  payload : List Nat
deriving DecidableEq, Repr

/-- The state written by `CanFrame::reset`, which is also what the constructor
`CanFrame()` builds. -/
def CanFrame.new : CanFrame :=
  { ID := 0, frameType := FrameType.UNKNOWN, pci := 0, payloadLength := 0,
    sequenceNumber := 0, fcStatus := 0, fcBlockSize := 0, fcSTmin := 0,
    data := [], payload := [] }

/-- One call to an output routine: `proceedMessage(message, messageID)` hands a
completed message to the sink, `printErrorMessage(messageID, message)` reports
an error. -/
inductive Output where
  | proceedMessage (message : List Nat) (messageID : Nat)
  | printErrorMessage (messageID : Nat) (message : String)
deriving DecidableEq, Repr

/-- Active multi-frame message streams indexed by CAN ID (`messagesStream`). -/
abbrev MessagesStream := Nat → Option Message

/-- The map of a freshly constructed parser. -/
def MessagesStream.empty : MessagesStream := fun _ => none

/-- Removal of a key (`std::map::erase`). -/
def MessagesStream.erase (ms : MessagesStream) (key : Nat) : MessagesStream :=
  fun k => if k = key then none else ms k

/-- The element that `operator[]` refers to: the stored one, or a default
constructed `Message` when the key is absent. -/
def MessagesStream.at (ms : MessagesStream) (key : Nat) : Message :=
  (ms key).getD Message.new

/-- The map after the element under `key` has been assigned through `operator[]`. -/
def MessagesStream.store (ms : MessagesStream) (key : Nat) (m : Message) : MessagesStream :=
  fun k => if k = key then some m else ms k

/-- Subtraction of two `uint16_t` values stored back into a `uint16_t`. -/
def sub16 (a b : Nat) : Nat := (a + 65536 - b) % 65536

/-! ## The decoder (`parseCanFrame`, lines 40-91) -/

/-- The part of `parseCanFrame` that follows the reading of the text line: `ID`
and `data` are the identifier and the data bytes already read.  The result is the
frame together with the errors printed; `none` stands for a read outside `data`. -/
def parseCanFrame (ID : Nat) (data : List Nat) : Option (CanFrame × List Output) :=
  let frameData : CanFrame := { CanFrame.new with ID := ID, data := data }
  match data with
  | [] => some (frameData, [])
  | pci :: _ =>
    let frameData : CanFrame := { frameData with pci := pci }
    match pci >>> 4 with
    | 0 =>
      let frameData : CanFrame :=
        { frameData with frameType := FrameType.SF, payloadLength := pci &&& 0x0F }
      if frameData.payloadLength > data.length - 1 then
        some ({ frameData with frameType := FrameType.UNKNOWN },
              [Output.printErrorMessage ID "Invalid frame data size!"])
      else
        some ({ frameData with payload := (data.drop 1).take frameData.payloadLength }, [])
    | 1 =>
      match data[1]? with
      | none => none
      | some b1 =>
        some ({ frameData with
                  frameType := FrameType.FF,
                  payloadLength := ((pci &&& 0x0F) <<< 8) ||| b1,
                  payload := data.drop 2 }, [])
    | 2 =>
      some ({ frameData with
                frameType := FrameType.CF,
                sequenceNumber := pci &&& 0x0F,
                payloadLength := data.length - 1,
                payload := data.drop 1 }, [])
    | 3 =>
      let frameData : CanFrame :=
        { frameData with frameType := FrameType.FC, payload := data.drop 1 }
      if frameData.payload.length < 3 then
        some ({ frameData with frameType := FrameType.UNKNOWN }, [])
      else
        some ({ frameData with
                  fcStatus := (frameData.payload.getD 0 0 >>> 5) &&& 0x07,
                  fcBlockSize := frameData.payload.getD 1 0,
                  fcSTmin := frameData.payload.getD 2 0 }, [])
    | _ => some ({ frameData with frameType := FrameType.UNKNOWN }, [])

/-! ## The reassembly engine (`processData`, `validateCFMessageFrame`) -/

/-- Check of a Consecutive Frame against the stored stream
(`validateCFMessageFrame`): the verdict and the error printed. -/
def validateCFMessageFrame (messagesStream : MessagesStream) (frame : CanFrame) :
    Bool × List Output :=
  match messagesStream frame.ID with
  | none => (false, [Output.printErrorMessage frame.ID "Invalid CF Frame!"])
  | some m =>
    if frame.sequenceNumber ≠ m.next then
      (false, [Output.printErrorMessage frame.ID "invalid CF frame sequence"])
    else
      (true, [])

/-- Application of one decoded frame to the table (`processData`): the new table
and the outputs produced. -/
def processData (messagesStream : MessagesStream) (frameData : CanFrame) :
    MessagesStream × List Output :=
  match frameData.frameType with
  | FrameType.SF =>
    if (messagesStream frameData.ID).isSome then
      (messagesStream.erase frameData.ID,
        [Output.printErrorMessage frameData.ID "Message reset!"])
    else
      (messagesStream, [Output.proceedMessage frameData.payload frameData.ID])
  | FrameType.FF =>
    let m : Message := messagesStream.at frameData.ID
    let copyLen : Nat := min FF_PAYLOAD frameData.payloadLength
    let m : Message :=
      { m with ID := frameData.ID, length := frameData.payloadLength,
               received := copyLen, next := 1 }
    let m : Message := m.appendData frameData.payload copyLen
    (messagesStream.store frameData.ID m, [])
  | FrameType.CF =>
    let v := validateCFMessageFrame messagesStream frameData
    if v.1 = false then
      (messagesStream, v.2)
    else
      let m : Message := messagesStream.at frameData.ID
      let remaining : Nat := sub16 m.length m.received
      let copyLen : Nat := min CF_PAYLOAD remaining
      let m : Message := m.appendData frameData.payload copyLen
      let m : Message := { m with received := (m.received + copyLen) % 65536 }
      let m : Message := { m with next := (m.next + 1) &&& 0x0F }
      if m.received ≥ m.length then
        (messagesStream.erase frameData.ID,
          v.2 ++ [Output.proceedMessage m.messageBuffer frameData.ID])
      else
        (messagesStream.store frameData.ID m, v.2)
  | FrameType.FC => (messagesStream, [])
  | FrameType.UNKNOWN =>
    (messagesStream, [Output.printErrorMessage 0 "Unknown frame type"])

/-- Successive application of decoded frames, outputs in program order. -/
def processAll (messagesStream : MessagesStream) :
    List CanFrame → MessagesStream × List Output
  | [] => (messagesStream, [])
  | frameData :: rest =>
    let r := processData messagesStream frameData
    let r2 := processAll r.1 rest
    (r2.1, r.2 ++ r2.2)

/-- Decoding followed by application (`proceedFrame`, after the text line has
been read into an identifier and data bytes). -/
def proceedFrame (messagesStream : MessagesStream) (ID : Nat) (data : List Nat) :
    Option (MessagesStream × List Output) :=
  match parseCanFrame ID data with
  | none => none
  | some (frameData, errors) =>
    let r := processData messagesStream frameData
    some (r.1, errors ++ r.2)

/-- The loop of `main` over already read lines: each is decoded and applied in
turn. -/
def proceedFrames (messagesStream : MessagesStream) :
    List (Nat × List Nat) → Option (MessagesStream × List Output)
  | [] => some (messagesStream, [])
  | (ID, data) :: rest =>
    match proceedFrame messagesStream ID data with
    | none => none
    | some (ms1, out1) =>
      match proceedFrames ms1 rest with
      | none => none
      | some (ms2, out2) => some (ms2, out1 ++ out2)

/-! ## Segmentation of a payload, used to state the round trip -/

/-- The First Frame for `ID` that declares the total length `n` and carries
`bytes`, with the fields the decoder fills in for it. -/
def firstFrame (ID n : Nat) (bytes : List Nat) : CanFrame :=
  { CanFrame.new with
      ID := ID, frameType := FrameType.FF,
      pci := 0x10 ||| (n >>> 8),
      payloadLength := n,
      data := (0x10 ||| (n >>> 8)) :: (n &&& 0xFF) :: bytes,
      payload := bytes }

/-- The Consecutive Frame for `ID` with sequence number `seq` that carries
`bytes`, with the fields the decoder fills in for it. -/
def consecutiveFrame (ID seq : Nat) (bytes : List Nat) : CanFrame :=
  { CanFrame.new with
      ID := ID, frameType := FrameType.CF,
      pci := 0x20 ||| seq,
      sequenceNumber := seq,
      payloadLength := bytes.length,
      data := (0x20 ||| seq) :: bytes,
      payload := bytes }

/-- The Consecutive Frames that carry `rest` seven bytes at a time, the first
with sequence number `seq`, the following ones counting on modulo 16.  `fuel`
bounds the number of frames; `rest.length` is always enough. -/
def consecutiveFrames (ID : Nat) : Nat → Nat → List Nat → List CanFrame
  | 0, _, _ => []
  | fuel + 1, seq, rest =>
    if rest.isEmpty then []
    else
      consecutiveFrame ID seq (rest.take CF_PAYLOAD) ::
        consecutiveFrames ID fuel ((seq + 1) % 16) (rest.drop CF_PAYLOAD)

/-- The frame sequence that transports `payload` for `ID`: a First Frame with
the declared length and the first six bytes, then the Consecutive Frames with
sequence numbers 1, 2, ..., 15, 0, 1, ... -/
def segment (ID : Nat) (payload : List Nat) : List CanFrame :=
  firstFrame ID payload.length (payload.take FF_PAYLOAD) ::
    consecutiveFrames ID payload.length 1 (payload.drop FF_PAYLOAD)

/-! ## The effect of an accepted Consecutive Frame -/

/-- The session that an accepted Consecutive Frame leaves behind, before the
completion test. -/
def advance (m : Message) (frameData : CanFrame) : Message :=
  let copyLen := min CF_PAYLOAD (sub16 m.length m.received)
  { m with
      messageBuffer :=
        m.messageBuffer ++ frameData.payload.take (min copyLen (frameData.payload.length % 65536)),
      received := (m.received + copyLen) % 65536,
      next := (m.next + 1) &&& 0x0F }

/-! ## Observation of runs and sample data -/

/-- The session stored for `ID` and the outputs produced once the given lines
(identifier and data bytes) have been decoded and applied, in order, starting
from the empty table. -/
def observe (lines : List (Nat × List Nat)) (ID : Nat) :
    Option (Option Message × List Output) :=
  match proceedFrames MessagesStream.empty lines with
  | none => none
  | some r => some (r.1 ID, r.2)

/-- A session for identifier 5 as the First Frame `10 14 01 .. 06` leaves it:
twenty bytes declared, six received. -/
def sampleSession : Message :=
  { ID := 5, messageBuffer := [1, 2, 3, 4, 5, 6], length := 20, received := 6, next := 1 }

/-- The table that holds `sampleSession` and nothing else. -/
def sampleStream : MessagesStream := MessagesStream.empty.store 5 sampleSession

/-! ## Reachable states -/

/-- A frame that the decoder returns for some identifier and some data of at most
eight bytes, each below 256. -/
def Decoded (f : CanFrame) : Prop :=
  ∃ (ID : Nat) (data : List Nat) (errors : List Output),
    data.length ≤ CAN_MAX_DATA ∧ (∀ b ∈ data, b < 256) ∧
      parseCanFrame ID data = some (f, errors)

/-- Every stored session has received at most its declared length, and that
length fits sixteen bits. -/
def WithinLength (ms : MessagesStream) : Prop :=
  ∀ (k : Nat) (m : Message), ms k = some m → m.received ≤ m.length ∧ m.length < 65536

/-! ## The text front end (`parseCanFrame` lines 31-38, `hexByte`, `proceedFrame`, `main`)

A line is a list of characters, one per C++ `char`.  `unsigned long` is taken to
have 64 bits; the results after the narrowing casts do not depend on that. -/

/-- Exceptions thrown by the standard library calls of the front end. -/
inductive Exception where
  | invalid_argument
  | out_of_range
deriving DecidableEq, Repr

/-- Value of a hexadecimal digit (`0-9`, `a-f`, `A-F`), `none` for any other
character. -/
def hexDigit (c : Char) : Option Nat :=
  let n := c.toNat
  if 48 ≤ n ∧ n ≤ 57 then some (n - 48)
  else if 97 ≤ n ∧ n ≤ 102 then some (n - 87)
  else if 65 ≤ n ∧ n ≤ 70 then some (n - 55)
  else none

/-- White space as `isspace` sees it in the "C" locale: space and the characters
with codes 9 to 13. -/
def isSpace (c : Char) : Bool :=
  decide (c.toNat = 32) || (decide (9 ≤ c.toNat) && decide (c.toNat ≤ 13))

/-- The longest run of leading hexadecimal digits: the accumulated value and the
number of digits read. -/
def readDigits : List Char → Nat → Nat → Nat × Nat
  | [], acc, count => (acc, count)
  | c :: cs, acc, count =>
    match hexDigit c with
    | some v => readDigits cs (acc * 16 + v) (count + 1)
    | none => (acc, count)

/-- The sign accepted by `strtoul`: whether the number is negated, and the text
behind the sign. -/
def readSign : List Char → Bool × List Char
  | [] => (false, [])
  | c :: cs =>
    if c.toNat = 45 then (true, cs)
    else if c.toNat = 43 then (false, cs)
    else (false, c :: cs)

/-- The optional `0x` / `0X` of base 16, skipped when a hexadecimal digit follows
it. -/
def skipHexMark : List Char → List Char
  | c0 :: cx :: ch :: cs =>
    if c0.toNat = 48 ∧ (cx.toNat = 120 ∨ cx.toNat = 88) ∧ (hexDigit ch).isSome then ch :: cs
    else c0 :: cx :: ch :: cs
  | s => s

/-- The call `std::stoul(s, nullptr, 16)`: leading white space is skipped, a sign
and the mark `0x` are accepted, the longest run of hexadecimal digits is
converted and whatever follows it is ignored.  Without any digit the call throws
`std::invalid_argument`, beyond the range of `unsigned long` it throws
`std::out_of_range`; a negated value wraps. -/
def stoul (s : List Char) : Except Exception Nat :=
  let signed := readSign (s.dropWhile isSpace)
  let r := readDigits (skipHexMark signed.2) 0 0
  if r.2 = 0 then Except.error Exception.invalid_argument
  else if r.1 ≥ 2 ^ 64 then Except.error Exception.out_of_range
  else Except.ok (if signed.1 then (2 ^ 64 - r.1) % 2 ^ 64 else r.1)

/-- Two characters at position `pos` converted into a `uint8_t` (`hexByte`);
`substr` throws `std::out_of_range` for a position behind the end. -/
def hexByte (s : List Char) (pos : Nat) : Except Exception Nat :=
  if pos > s.length then Except.error Exception.out_of_range
  else
    match stoul ((s.drop pos).take 2) with
    | Except.error e => Except.error e
    | Except.ok v => Except.ok (v % 256)

/-- The loop over the data bytes (lines 35-38) from position `i` on with the
bytes `data` already read.  `fuel` bounds the number of rounds; the loop leaves
after the eighth byte, so eight rounds are always enough. -/
def readData (s : List Char) : Nat → Nat → List Nat → Except Exception (List Nat)
  | 0, _, data => Except.ok data
  | fuel + 1, i, data =>
    if i + 1 < s.length then
      match hexByte s i with
      | Except.error e => Except.error e
      | Except.ok b =>
        let data := data ++ [b]
        if data.length = 8 then Except.ok data
        else readData s fuel (i + 2) data
    else Except.ok data

/-- Lines 31-38 of `parseCanFrame`: the identifier (a `uint16_t`) and the data
bytes read from the text line, or the exception thrown on the way. -/
def readFrame (strFrame : List Char) : Except Exception (Nat × List Nat) :=
  match stoul (strFrame.take 3) with
  | Except.error e => Except.error e
  | Except.ok v =>
    match readData strFrame 8 3 [] with
    | Except.error e => Except.error e
    | Except.ok data => Except.ok (v % 65536, data)

/-- The whole of `parseCanFrame` on a text line: an exception, or the outcome of
the decoder on the identifier and bytes read (`none` for a read outside the
data). -/
def parseCanFrameLine (strFrame : List Char) :
    Except Exception (Option (CanFrame × List Output)) :=
  match readFrame strFrame with
  | Except.error e => Except.error e
  | Except.ok (ID, data) => Except.ok (parseCanFrame ID data)

/-- The whole of `proceedFrame` on a text line: an exception leaves
`processData` uncalled. -/
def proceedFrameLine (messagesStream : MessagesStream) (frame : List Char) :
    Except Exception (Option (MessagesStream × List Output)) :=
  match readFrame frame with
  | Except.error e => Except.error e
  | Except.ok (ID, data) => Except.ok (proceedFrame messagesStream ID data)

/-- The loop of `main` over the lines of the transcript: empty lines are skipped
and an exception is caught, both leaving the parser as it is.  The result is the
table and the outputs of the parser; the report that `main` itself prints for a
caught exception is not among them. -/
def mainLoop (messagesStream : MessagesStream) :
    List (List Char) → Option (MessagesStream × List Output)
  | [] => some (messagesStream, [])
  | line :: rest =>
    if line.isEmpty then mainLoop messagesStream rest
    else
      match proceedFrameLine messagesStream line with
      | Except.error _ => mainLoop messagesStream rest
      | Except.ok none => none
      | Except.ok (some (ms1, out1)) =>
        match mainLoop ms1 rest with
        | none => none
        | some (ms2, out2) => some (ms2, out1 ++ out2)

/-- The session stored for `ID` and the outputs of the parser once `main` has
processed the given text lines. -/
def observeLines (lines : List String) (ID : Nat) : Option (Option Message × List Output) :=
  match mainLoop MessagesStream.empty (lines.map String.toList) with
  | none => none
  | some r => some (r.1 ID, r.2)

/-! ## Reference reading of a line of hexadecimal digits -/

/-- Numeric value of a string of hexadecimal digits, most significant digit
first. -/
def hexValue (digits : List Char) : Nat :=
  digits.foldl (fun acc c => acc * 16 + (hexDigit c).getD 0) 0

/-- The text behind the identifier cut into pairs of characters, in order; a
trailing unpaired character is left out. -/
def digitPairs : List Char → List (List Char)
  | c1 :: c2 :: rest => [c1, c2] :: digitPairs rest
  | _ => []

/-- The field begins, after optional white space and an optional sign, with a
hexadecimal digit. -/
def hasLeadingHexDigit (field : List Char) : Bool :=
  match (readSign (field.dropWhile isSpace)).2 with
  | c :: _ => (hexDigit c).isSome
  | [] => false

/-! ## Lifecycle and sequence counter -/

/-- Every stored session is either incomplete, or exactly as a First Frame that
declared at most six bytes left it: complete, with the sequence counter at 1. -/
def OpenOrFresh (ms : MessagesStream) : Prop :=
  ∀ (k : Nat) (m : Message), ms k = some m →
    m.received < m.length ∨ (m.received = m.length ∧ m.length ≤ 6 ∧ m.next = 1)

/-- Each frame of the list that carries the identifier `X` is a Consecutive Frame
whose sequence number is the one the session for `X` expects at that moment and
after which the session is still stored (the message is not complete); frames
for other identifiers are free. -/
def acceptedWithoutCompletion (X : Nat) : MessagesStream → List CanFrame → Bool
  | _, [] => true
  | ms, f :: rest =>
    (if f.ID = X then
      decide (f.frameType = FrameType.CF) &&
        (match ms X with
          | none => false
          | some m => decide (f.sequenceNumber = m.next)) &&
        ((processData ms f).1 X).isSome
     else true) &&
      acceptedWithoutCompletion X (processData ms f).1 rest

/-! ## Basic facts about the table operations -/

theorem MessagesStream.erase_same (ms : MessagesStream) (key : Nat) :
    ms.erase key key = none := by
  simp [MessagesStream.erase]

theorem MessagesStream.erase_other (ms : MessagesStream) {key k : Nat} (h : k ≠ key) :
    ms.erase key k = ms k := by
  simp [MessagesStream.erase, h]

theorem MessagesStream.store_same (ms : MessagesStream) (key : Nat) (m : Message) :
    ms.store key m key = some m := by
  simp [MessagesStream.store]

theorem MessagesStream.store_other (ms : MessagesStream) {key k : Nat} (m : Message)
    (h : k ≠ key) : ms.store key m k = ms k := by
  simp [MessagesStream.store, h]

theorem MessagesStream.erase_store (ms : MessagesStream) (key : Nat) (m : Message) :
    (ms.store key m).erase key = ms.erase key := by
  funext k
  by_cases h : k = key <;> simp [MessagesStream.erase, MessagesStream.store, h]

theorem MessagesStream.erase_absent (ms : MessagesStream) (key : Nat) (h : ms key = none) :
    ms.erase key = ms := by
  funext k
  by_cases hk : k = key
  · subst hk; simp [MessagesStream.erase, h]
  · simp [MessagesStream.erase, hk]

theorem MessagesStream.at_present (ms : MessagesStream) (key : Nat) (m : Message)
    (h : ms key = some m) : ms.at key = m := by
  simp [MessagesStream.at, h]

/-! ## One step of the engine, branch by branch -/

theorem processData_CF_accepted (ms : MessagesStream) (f : CanFrame) (m : Message)
    (hk : ms f.ID = some m) (ht : f.frameType = FrameType.CF)
    (hs : f.sequenceNumber = m.next) :
    processData ms f =
      if (advance m f).received ≥ m.length then
        (ms.erase f.ID, [Output.proceedMessage (advance m f).messageBuffer f.ID])
      else
        (ms.store f.ID (advance m f), []) := by
  simp [processData, ht, validateCFMessageFrame, hk, hs, MessagesStream.at,
    Message.appendData, advance]

theorem processData_FF (ms : MessagesStream) (f : CanFrame)
    (ht : f.frameType = FrameType.FF) :
    processData ms f =
      (ms.store f.ID
        { ID := f.ID,
          messageBuffer :=
            (ms.at f.ID).messageBuffer ++
              f.payload.take (min (min FF_PAYLOAD f.payloadLength) (f.payload.length % 65536)),
          length := f.payloadLength,
          received := min FF_PAYLOAD f.payloadLength,
          next := 1 }, []) := by
  simp [processData, ht, Message.appendData]

/-! ## Round trip of a segmented payload -/

theorem consecutiveFrames_nil (ID fuel seq : Nat) :
    consecutiveFrames ID fuel seq [] = [] := by
  cases fuel <;> simp [consecutiveFrames]

/-- Running the Consecutive Frames of the outstanding bytes `rest` against a
session that has collected `buf` delivers `buf ++ rest` and removes the session. -/
theorem processAll_consecutiveFrames (ID total : Nat) (htotal : total < 65536) :
    ∀ (fuel : Nat) (rest buf : List Nat) (seq : Nat) (ms : MessagesStream),
      rest.length ≤ fuel → rest ≠ [] → buf.length + rest.length = total →
      ms ID = some
        { ID := ID, messageBuffer := buf, length := total, received := buf.length,
          next := seq % 16 } →
      processAll ms (consecutiveFrames ID fuel (seq % 16) rest) =
        (ms.erase ID, [Output.proceedMessage (buf ++ rest) ID]) := by
  intro fuel
  induction fuel with
  | zero =>
    intro rest buf seq ms hfuel hne
    cases rest with
    | nil => exact absurd rfl hne
    | cons b bs => simp at hfuel
  | succ fuel ih =>
    intro rest buf seq ms hfuel hne htot hms
    have hpos : 0 < rest.length := List.length_pos.mpr hne
    have hemp : rest.isEmpty = false := by
      cases rest with
      | nil => exact absurd rfl hne
      | cons b bs => rfl
    have hseq : (seq % 16 + 1) &&& 15 = (seq + 1) % 16 := by
      simpa using Nat.and_pow_two_sub_one_eq_mod (seq % 16 + 1) 4
    have hseq2 : (seq % 16 + 1) % 16 = (seq + 1) % 16 := by omega
    have hsub : sub16 total buf.length = rest.length := by
      unfold sub16; omega
    have hunfold : consecutiveFrames ID (fuel + 1) (seq % 16) rest =
        consecutiveFrame ID (seq % 16) (rest.take 7) ::
          consecutiveFrames ID fuel ((seq + 1) % 16) (rest.drop 7) := by
      simp [consecutiveFrames, hemp, hseq2]
    have hstep := processData_CF_accepted ms
      (consecutiveFrame ID (seq % 16) (rest.take 7)) _ hms rfl rfl
    have hadv : advance
        { ID := ID, messageBuffer := buf, length := total, received := buf.length,
          next := seq % 16 }
        (consecutiveFrame ID (seq % 16) (rest.take 7)) =
        { ID := ID, messageBuffer := buf ++ rest.take 7, length := total,
          received := buf.length + min 7 rest.length, next := (seq + 1) % 16 } := by
      have hmod : (buf.length + min 7 rest.length) % 65536 = buf.length + min 7 rest.length := by
        omega
      have hmod2 : min 7 rest.length % 65536 = min 7 rest.length := by omega
      simp [advance, consecutiveFrame, CanFrame.new, hsub, hseq, hmod, hmod2, List.take_take]
    rw [hadv] at hstep
    have hid : (consecutiveFrame ID (seq % 16) (rest.take 7)).ID = ID := rfl
    rw [hid] at hstep
    rw [hunfold]
    by_cases hlast : rest.length ≤ 7
    · have htake : rest.take 7 = rest := List.take_of_length_le hlast
      have hdrop : rest.drop 7 = [] := List.drop_of_length_le hlast
      have hmin : min 7 rest.length = rest.length := by omega
      have hge : buf.length + rest.length ≥ total := by omega
      simp only [hmin, hge, if_true] at hstep
      rw [htake] at hstep
      rw [htake]
      simp only [processAll, hstep, hdrop, consecutiveFrames_nil, List.append_nil]
    · have hmin : min 7 rest.length = 7 := by omega
      have hlt : ¬ buf.length + 7 ≥ total := by omega
      simp only [hmin, hlt, if_false] at hstep
      have hrest : (rest.drop 7) ≠ [] := by
        intro h
        have := congrArg List.length h
        simp at this
        omega
      have hlen : (rest.take 7).length = 7 := by
        rw [List.length_take]; omega
      have hnext := ih (rest.drop 7) (buf ++ rest.take 7) (seq + 1)
        (ms.store ID
          { ID := ID, messageBuffer := buf ++ rest.take 7, length := total,
            received := buf.length + 7, next := (seq + 1) % 16 })
        (by simp; omega) hrest (by simp; omega)
        (by simp [MessagesStream.store, hlen])
      simp only [processAll, hstep, hnext, MessagesStream.erase_store, List.nil_append,
        List.append_assoc, List.take_append_drop]

/-- C1, as amended: for every identifier and every payload of length `n` with
`7 ≤ n ≤ 4095`, starting from a table with no session for the identifier,
applying the First Frame that declares `n` and carries the first six bytes,
followed by the Consecutive Frames that carry the following bytes seven at a time
with sequence numbers 1, 2, ..., 15, 0, 1, ..., produces exactly one output, the
completed message for that identifier with the original payload, and leaves no
session behind (the table is as before). -/
theorem roundTrip_segment (ID : Nat) (payload : List Nat) (ms : MessagesStream)
    (hmin : 7 ≤ payload.length) (hmax : payload.length ≤ 4095) (hfree : ms ID = none) :
    processAll ms (segment ID payload) = (ms, [Output.proceedMessage payload ID]) := by
  have hff := processData_FF ms (firstFrame ID payload.length (payload.take FF_PAYLOAD)) rfl
  have hat : ms.at ID = Message.new := by simp [MessagesStream.at, hfree]
  have hlen6 : (payload.take 6).length = 6 := by
    rw [List.length_take]; omega
  have hm6 : min 6 payload.length = 6 := by omega
  simp only [firstFrame, CanFrame.new, hat, Message.new, FF_PAYLOAD, CAN_MAX_DATA] at hff
  simp only [Nat.reduceSub, List.nil_append, hlen6, hm6, Nat.reduceMod, min_self,
    List.take_take] at hff
  have hloop := processAll_consecutiveFrames ID payload.length (by omega) payload.length
    (payload.drop 6) (payload.take 6) 1
    (ms.store ID
      { ID := ID, messageBuffer := payload.take 6, length := payload.length,
        received := 6, next := 1 })
    (by simp)
    (by
      intro h
      have := congrArg List.length h
      simp at this
      omega)
    (by simp; omega)
    (by simp [MessagesStream.store, hlen6])
  simp only [Nat.reduceMod] at hloop
  simp only [segment, processAll, firstFrame, CanFrame.new, FF_PAYLOAD, CAN_MAX_DATA,
    Nat.reduceSub, hff, hloop, List.nil_append, List.take_append_drop,
    MessagesStream.erase_store, MessagesStream.erase_absent ms ID hfree]

/-- C1, instance of the amended round trip: a payload of eight bytes for
identifier `0x1FF`, from the empty table. -/
theorem roundTrip_segment_witness :
    7 ≤ [0x11, 0x22, 0x33, 0x44, 0x55, 0x66, 0x77, 0x88].length ∧
    [0x11, 0x22, 0x33, 0x44, 0x55, 0x66, 0x77, 0x88].length ≤ 4095 ∧
    MessagesStream.empty 0x1FF = none ∧
    processAll MessagesStream.empty
        (segment 0x1FF [0x11, 0x22, 0x33, 0x44, 0x55, 0x66, 0x77, 0x88]) =
      (MessagesStream.empty,
        [Output.proceedMessage [0x11, 0x22, 0x33, 0x44, 0x55, 0x66, 0x77, 0x88] 0x1FF]) :=
  ⟨by decide, by decide, rfl,
    roundTrip_segment 0x1FF [0x11, 0x22, 0x33, 0x44, 0x55, 0x66, 0x77, 0x88]
      MessagesStream.empty (by decide) (by decide) rfl⟩

/-- C1 fails as stated for payloads of one to six bytes: the segmentation of the
one-byte payload `AB` for identifier `0x123` is the First Frame alone, and
applying it to the empty table delivers nothing; the session stays stored with
`received = length`. -/
theorem roundTrip_short_payload_not_delivered :
    segment 0x123 [0xAB] = [firstFrame 0x123 1 [0xAB]] ∧
    (processAll MessagesStream.empty (segment 0x123 [0xAB])).2 = [] ∧
    (processAll MessagesStream.empty (segment 0x123 [0xAB])).1 0x123 =
      some { ID := 0x123, messageBuffer := [0xAB], length := 1, received := 1, next := 1 } := by
  decide

/-! ## Consecutive Frames against a stored session -/

/-- C2, as amended: for every table that holds a session for the frame's
identifier and every Consecutive Frame (of at most eight payload bytes) whose
sequence number equals the session's `next` and whose payload holds at least
`copyLen = min(7, length - received)` bytes (16-bit subtraction, the plain
difference whenever `received ≤ length`), `processData` appends exactly the first
`copyLen` payload bytes to the buffer, increases `received` by `copyLen` (as a
16-bit value) and sets `next` to `(next + 1) & 0x0F`; the updated session is
stored, or delivered and removed when its `received` has reached `length`. -/
theorem CF_accepted_appends_copyLen (ms : MessagesStream) (f : CanFrame) (m : Message)
    (hk : ms f.ID = some m) (ht : f.frameType = FrameType.CF)
    (hs : f.sequenceNumber = m.next)
    (hsize : f.payload.length ≤ CAN_MAX_DATA)
    (hfull : min 7 (sub16 m.length m.received) ≤ f.payload.length) :
    ∃ m2 : Message,
      m2.messageBuffer =
        m.messageBuffer ++ f.payload.take (min 7 (sub16 m.length m.received)) ∧
      m2.messageBuffer.length =
        m.messageBuffer.length + min 7 (sub16 m.length m.received) ∧
      m2.received = (m.received + min 7 (sub16 m.length m.received)) % 65536 ∧
      m2.next = (m.next + 1) &&& 0x0F ∧
      m2.length = m.length ∧ m2.ID = m.ID ∧
      (m.received ≤ m.length → m.length < 65536 →
        sub16 m.length m.received = m.length - m.received ∧
        m2.received = m.received + min 7 (m.length - m.received)) ∧
      processData ms f =
        if m2.received ≥ m2.length then
          (ms.erase f.ID, [Output.proceedMessage m2.messageBuffer f.ID])
        else
          (ms.store f.ID m2, []) := by
  have hmod : f.payload.length % 65536 = f.payload.length := by
    apply Nat.mod_eq_of_lt
    have : f.payload.length ≤ 8 := hsize
    omega
  have hclamp : min (min 7 (sub16 m.length m.received)) f.payload.length =
      min 7 (sub16 m.length m.received) := by omega
  refine ⟨advance m f, ?_, ?_, ?_, ?_, ?_, ?_, ?_, ?_⟩
  · simp [advance, hmod, hclamp]
  · simp only [advance, hmod, hclamp, CF_PAYLOAD, CAN_MAX_DATA, Nat.reduceSub,
      List.length_append, List.length_take]
  · simp [advance]
  · simp [advance]
  · simp [advance]
  · simp [advance]
  · intro hle hlt
    have hsub : sub16 m.length m.received = m.length - m.received := by
      unfold sub16; omega
    refine ⟨hsub, ?_⟩
    simp only [advance, CF_PAYLOAD, CAN_MAX_DATA, Nat.reduceSub, hsub]
    omega
  · exact processData_CF_accepted ms f m hk ht hs

/-- C2, instance of the amended statement: the sample session (20 declared, 6
received) and the Consecutive Frame with sequence number 1 carrying seven
bytes. -/
theorem CF_accepted_appends_copyLen_witness :
    sampleStream (consecutiveFrame 5 1 [7, 8, 9, 10, 11, 12, 13]).ID = some sampleSession ∧
    (consecutiveFrame 5 1 [7, 8, 9, 10, 11, 12, 13]).sequenceNumber = sampleSession.next ∧
    processData sampleStream (consecutiveFrame 5 1 [7, 8, 9, 10, 11, 12, 13]) =
      (sampleStream.store 5
        { ID := 5, messageBuffer := [1, 2, 3, 4, 5, 6, 7, 8, 9, 10, 11, 12, 13],
          length := 20, received := 13, next := 2 }, []) := by
  refine ⟨rfl, rfl, ?_⟩
  obtain ⟨m2, hbuf, _, hrec, hnext, hlen, hid, _, hres⟩ :=
    CF_accepted_appends_copyLen sampleStream (consecutiveFrame 5 1 [7, 8, 9, 10, 11, 12, 13])
      sampleSession rfl rfl rfl (by decide) (by decide)
  have hm2 : m2 =
      { ID := 5, messageBuffer := [1, 2, 3, 4, 5, 6, 7, 8, 9, 10, 11, 12, 13],
        length := 20, received := 13, next := 2 } := by
    cases m2
    simp only [Message.mk.injEq]
    exact ⟨hid, hbuf, hlen, hrec, hnext⟩
  rw [hres, hm2]
  rfl

/-- C2 fails as stated when the Consecutive Frame is short: against the sample
session (`copyLen = min(7, 20 - 6) = 7`) the frame with sequence number 1 that
carries the single byte `AA` appends one byte, not seven, while `received` still
grows by seven. -/
theorem CF_short_payload_appends_less :
    sampleStream 5 = some sampleSession ∧
    min 7 (sampleSession.length - sampleSession.received) = 7 ∧
    (processData sampleStream (consecutiveFrame 5 1 [0xAA])).1 5 =
      some { ID := 5, messageBuffer := [1, 2, 3, 4, 5, 6, 0xAA], length := 20,
             received := 13, next := 2 } := by
  decide

/-- C3: for every table that holds a session for the frame's identifier and every
Consecutive Frame whose sequence number differs from the session's `next`,
`processData` reports the error "invalid CF frame sequence" for that identifier,
delivers no message and returns the table unchanged, so the session is still
present with the same buffer, `received`, `length` and `next`. -/
theorem CF_wrong_sequence_rejected (ms : MessagesStream) (f : CanFrame) (m : Message)
    (hk : ms f.ID = some m) (ht : f.frameType = FrameType.CF)
    (hs : f.sequenceNumber ≠ m.next) :
    processData ms f = (ms, [Output.printErrorMessage f.ID "invalid CF frame sequence"]) ∧
    (processData ms f).1 f.ID = some m := by
  have h : processData ms f =
      (ms, [Output.printErrorMessage f.ID "invalid CF frame sequence"]) := by
    simp [processData, ht, validateCFMessageFrame, hk, hs]
  exact ⟨h, by rw [h]; exact hk⟩

/-- C3, instance: the sample session expects sequence number 1 and is offered a
Consecutive Frame numbered 2. -/
theorem CF_wrong_sequence_rejected_witness :
    sampleStream (consecutiveFrame 5 2 [7, 8, 9]).ID = some sampleSession ∧
    (consecutiveFrame 5 2 [7, 8, 9]).frameType = FrameType.CF ∧
    (consecutiveFrame 5 2 [7, 8, 9]).sequenceNumber ≠ sampleSession.next ∧
    processData sampleStream (consecutiveFrame 5 2 [7, 8, 9]) =
      (sampleStream,
        [Output.printErrorMessage (consecutiveFrame 5 2 [7, 8, 9]).ID
          "invalid CF frame sequence"]) ∧
    (processData sampleStream (consecutiveFrame 5 2 [7, 8, 9])).1
      (consecutiveFrame 5 2 [7, 8, 9]).ID = some sampleSession :=
  ⟨rfl, rfl, by decide,
    CF_wrong_sequence_rejected sampleStream (consecutiveFrame 5 2 [7, 8, 9]) sampleSession
      rfl rfl (by decide)⟩

/-! ## First Frames -/

/-- C4, the code at the failing input: after the line `1FF 10 14 11 22 33 44 55 66`
has opened a session for `0x1FF`, a second First Frame `1FF 10 14 A1 .. A6` for
the same identifier resets `length`, `received` and `next` but appends its six
bytes behind the six bytes of the earlier session, so the buffer holds twelve
bytes while `received` is six. -/
theorem FF_keeps_earlier_buffer :
    observe
        [(0x1FF, [0x10, 0x14, 0x11, 0x22, 0x33, 0x44, 0x55, 0x66]),
         (0x1FF, [0x10, 0x14, 0xA1, 0xA2, 0xA3, 0xA4, 0xA5, 0xA6])] 0x1FF =
      some (some
        { ID := 0x1FF,
          messageBuffer :=
            [0x11, 0x22, 0x33, 0x44, 0x55, 0x66, 0xA1, 0xA2, 0xA3, 0xA4, 0xA5, 0xA6],
          length := 20, received := 6, next := 1 }, []) := by
  decide

/-- C5, the code at two failing inputs.  A repeated First Frame for `0x2A0`
leaves a stored session with a buffer of four bytes and `received = 2`; a lone
First Frame `10 14 01` that declares twenty bytes but carries one leaves a buffer
of one byte and `received = 6`. -/
theorem buffer_length_differs_from_received :
    observe [(0x2A0, [0x10, 0x02, 0x01, 0x02]), (0x2A0, [0x10, 0x02, 0x03, 0x04])] 0x2A0 =
      some (some
        { ID := 0x2A0, messageBuffer := [0x01, 0x02, 0x03, 0x04], length := 2,
          received := 2, next := 1 }, []) ∧
    observe [(0x2A0, [0x10, 0x14, 0x01])] 0x2A0 =
      some (some
        { ID := 0x2A0, messageBuffer := [0x01], length := 20, received := 6, next := 1 },
        []) := by
  decide

/-! ## Invariants of reachable tables -/

theorem payloadLength_lt_of_decoded {f : CanFrame} (h : Decoded f) :
    f.payloadLength < 65536 := by
  obtain ⟨ID, data, errors, hlen, hbytes, hparse⟩ := h
  cases data with
  | nil =>
    simp [parseCanFrame, CanFrame.new] at hparse
    rw [← hparse.1]
    simp
  | cons pci rest =>
    have hand : pci &&& 15 ≤ 15 := Nat.and_le_right
    have hrest : rest.length ≤ 7 := by
      simp [CAN_MAX_DATA] at hlen
      omega
    simp only [parseCanFrame, CanFrame.new] at hparse
    split at hparse
    · split at hparse
      · simp at hparse
        rw [← hparse.1]
        show pci &&& 15 < 65536
        omega
      · simp at hparse
        rw [← hparse.1]
        show pci &&& 15 < 65536
        omega
    · split at hparse
      · simp at hparse
      · rename_i b1 hb1
        simp at hparse
        rw [← hparse.1]
        show ((pci &&& 15) <<< 8) ||| b1 < 65536
        have hb : b1 < 256 := by
          apply hbytes
          exact List.getElem?_mem hb1
        have hs : (pci &&& 15) <<< 8 < 2 ^ 16 := by
          rw [Nat.shiftLeft_eq]
          omega
        have hb2 : b1 < 2 ^ 16 := by omega
        exact Nat.or_lt_two_pow hs hb2
    · simp at hparse
      rw [← hparse.1]
      show (pci :: rest).length - 1 < 65536
      simp
      omega
    · split at hparse
      · simp at hparse
        rw [← hparse.1]
        simp
      · simp at hparse
        rw [← hparse.1]
        simp
    · simp at hparse
      rw [← hparse.1]
      simp

theorem withinLength_empty : WithinLength MessagesStream.empty := by
  intro k m h
  simp [MessagesStream.empty] at h

theorem withinLength_processData {ms : MessagesStream} (h : WithinLength ms) (f : CanFrame)
    (hf : f.payloadLength < 65536) : WithinLength (processData ms f).1 := by
  intro k m hm
  cases hft : f.frameType with
  | SF =>
    simp only [processData, hft] at hm
    split at hm
    · by_cases hk : k = f.ID
      · simp [MessagesStream.erase, hk] at hm
      · dsimp only at hm
        rw [MessagesStream.erase_other ms hk] at hm
        exact h k m hm
    · exact h k m hm
  | FF =>
    rw [processData_FF ms f hft] at hm
    by_cases hk : k = f.ID
    · simp [MessagesStream.store, hk] at hm
      rw [← hm]
      exact ⟨Nat.min_le_right _ _, hf⟩
    · dsimp only at hm
      rw [MessagesStream.store_other ms _ hk] at hm
      exact h k m hm
  | CF =>
    cases hs : ms f.ID with
    | none =>
      simp [processData, hft, validateCFMessageFrame, hs] at hm
      exact h k m hm
    | some m0 =>
      by_cases hseq : f.sequenceNumber = m0.next
      · rw [processData_CF_accepted ms f m0 hs hft hseq] at hm
        have h0 := h f.ID m0 hs
        split at hm
        · by_cases hk : k = f.ID
          · simp [MessagesStream.erase, hk] at hm
          · dsimp only at hm
            rw [MessagesStream.erase_other ms hk] at hm
            exact h k m hm
        · rename_i hnot
          by_cases hk : k = f.ID
          · simp [MessagesStream.store, hk] at hm
            rw [← hm]
            simp only [advance] at hnot ⊢
            exact ⟨by omega, h0.2⟩
          · dsimp only at hm
            rw [MessagesStream.store_other ms _ hk] at hm
            exact h k m hm
      · simp [processData, hft, validateCFMessageFrame, hs, hseq] at hm
        exact h k m hm
  | FC =>
    simp only [processData, hft] at hm
    exact h k m hm
  | UNKNOWN =>
    simp only [processData, hft] at hm
    exact h k m hm

theorem withinLength_processAll (frames : List CanFrame) :
    ∀ (ms : MessagesStream), WithinLength ms → (∀ f ∈ frames, Decoded f) →
      WithinLength (processAll ms frames).1 := by
  induction frames with
  | nil =>
    intro ms h _
    exact h
  | cons f rest ih =>
    intro ms h hdec
    simp only [processAll]
    apply ih
    · exact withinLength_processData h f (payloadLength_lt_of_decoded (hdec f (List.mem_cons_self f rest)))
    · intro g hg
      exact hdec g (List.mem_cons_of_mem f hg)

/-- C6: in every table reached from the empty table by applying any sequence of
decoded frames, every stored session satisfies `received ≤ length`, so the 16-bit
subtraction `length - received` of the Consecutive Frame branch equals the plain
difference and does not wrap. -/
theorem received_le_length_of_reachable (frames : List CanFrame)
    (hdec : ∀ f ∈ frames, Decoded f) (ID : Nat) (m : Message)
    (hm : (processAll MessagesStream.empty frames).1 ID = some m) :
    m.received ≤ m.length ∧ sub16 m.length m.received = m.length - m.received := by
  have h := withinLength_processAll frames MessagesStream.empty withinLength_empty hdec ID m hm
  refine ⟨h.1, ?_⟩
  unfold sub16
  omega

/-- C6, instance: the table reached by the decoded First Frame
`10 14 01 02 03 04 05 06` for identifier 5 stores the sample session, with
`received = 6` and `length = 20`. -/
theorem received_le_length_of_reachable_witness :
    Decoded (firstFrame 5 20 [1, 2, 3, 4, 5, 6]) ∧
    (processAll MessagesStream.empty [firstFrame 5 20 [1, 2, 3, 4, 5, 6]]).1 5 =
      some sampleSession ∧
    sampleSession.received ≤ sampleSession.length ∧
    sub16 sampleSession.length sampleSession.received =
      sampleSession.length - sampleSession.received :=
  have hdec : Decoded (firstFrame 5 20 [1, 2, 3, 4, 5, 6]) :=
    ⟨5, [0x10, 0x14, 1, 2, 3, 4, 5, 6], [], by decide, by decide, by decide⟩
  ⟨hdec, by decide,
    received_le_length_of_reachable [firstFrame 5 20 [1, 2, 3, 4, 5, 6]]
      (by
        intro f hf
        rw [List.mem_singleton] at hf
        rw [hf]
        exact hdec)
      5 sampleSession (by decide)⟩

/-! ## Completion -/

/-- C7: whenever an accepted Consecutive Frame brings `received` to at least
`length`, `processData` delivers the session buffer (with the bytes just
appended) as the completed message for the identifier, is the only output, and
leaves no session for the identifier; a First Frame for the identifier applied
after that stores a session whose buffer, `length`, `received` and `next` are
computed from that First Frame alone. -/
theorem completion_clears_state (ms : MessagesStream) (f : CanFrame) (m : Message)
    (hk : ms f.ID = some m) (ht : f.frameType = FrameType.CF)
    (hs : f.sequenceNumber = m.next)
    (hdone : m.length ≤ (m.received + min 7 (sub16 m.length m.received)) % 65536) :
    processData ms f =
      (ms.erase f.ID,
        [Output.proceedMessage
          (m.appendData f.payload (min 7 (sub16 m.length m.received))).messageBuffer f.ID]) ∧
    (processData ms f).1 f.ID = none ∧
    ∀ g : CanFrame, g.frameType = FrameType.FF → g.ID = f.ID →
      (processData (processData ms f).1 g).1 f.ID =
        some
          { ID := g.ID,
            messageBuffer := g.payload.take (min (min 6 g.payloadLength) (g.payload.length % 65536)),
            length := g.payloadLength,
            received := min 6 g.payloadLength,
            next := 1 } := by
  have hstep := processData_CF_accepted ms f m hk ht hs
  have hge : (advance m f).received ≥ m.length := by
    simp only [advance, CF_PAYLOAD, CAN_MAX_DATA, Nat.reduceSub]
    exact hdone
  rw [if_pos hge] at hstep
  refine ⟨?_, ?_, ?_⟩
  · rw [hstep]
    simp [advance, Message.appendData]
  · rw [hstep]
    exact MessagesStream.erase_same ms f.ID
  · intro g hg hid
    rw [hstep, processData_FF _ g hg, hid]
    simp [MessagesStream.store, MessagesStream.at, MessagesStream.erase, Message.new,
      FF_PAYLOAD, CAN_MAX_DATA]

/-- C7, instance: the session that has 6 of 8 bytes receives the Consecutive
Frame numbered 1 with three bytes, of which two complete the message. -/
theorem completion_clears_state_witness :
    processData
        (MessagesStream.empty.store 0x1FF
          { ID := 0x1FF, messageBuffer := [0x11, 0x22, 0x33, 0x44, 0x55, 0x66],
            length := 8, received := 6, next := 1 })
        (consecutiveFrame 0x1FF 1 [0x77, 0x88, 0x99]) =
      ((MessagesStream.empty.store 0x1FF
          { ID := 0x1FF, messageBuffer := [0x11, 0x22, 0x33, 0x44, 0x55, 0x66],
            length := 8, received := 6, next := 1 }).erase 0x1FF,
        [Output.proceedMessage [0x11, 0x22, 0x33, 0x44, 0x55, 0x66, 0x77, 0x88] 0x1FF]) :=
  (completion_clears_state
    (MessagesStream.empty.store 0x1FF
      { ID := 0x1FF, messageBuffer := [0x11, 0x22, 0x33, 0x44, 0x55, 0x66],
        length := 8, received := 6, next := 1 })
    (consecutiveFrame 0x1FF 1 [0x77, 0x88, 0x99])
    { ID := 0x1FF, messageBuffer := [0x11, 0x22, 0x33, 0x44, 0x55, 0x66],
      length := 8, received := 6, next := 1 }
    rfl rfl rfl (by decide)).1

/-! ## Isolation between identifiers -/

theorem processData_other (ms : MessagesStream) (f : CanFrame) {k : Nat} (hk : k ≠ f.ID) :
    (processData ms f).1 k = ms k := by
  cases hft : f.frameType with
  | SF =>
    simp only [processData, hft]
    split
    · exact MessagesStream.erase_other ms hk
    · rfl
  | FF =>
    rw [processData_FF ms f hft]
    exact MessagesStream.store_other ms _ hk
  | CF =>
    cases hs : ms f.ID with
    | none => simp [processData, hft, validateCFMessageFrame, hs]
    | some m0 =>
      by_cases hseq : f.sequenceNumber = m0.next
      · rw [processData_CF_accepted ms f m0 hs hft hseq]
        split
        · exact MessagesStream.erase_other ms hk
        · exact MessagesStream.store_other ms _ hk
      · simp [processData, hft, validateCFMessageFrame, hs, hseq]
  | FC => simp only [processData, hft]
  | UNKNOWN => simp only [processData, hft]

theorem processData_message_ID (ms : MessagesStream) (f : CanFrame) (message : List Nat)
    (messageID : Nat) (h : Output.proceedMessage message messageID ∈ (processData ms f).2) :
    messageID = f.ID := by
  cases hft : f.frameType with
  | SF =>
    simp only [processData, hft] at h
    split at h
    · simp at h
    · simp at h
      exact h.2
  | FF =>
    rw [processData_FF ms f hft] at h
    simp at h
  | CF =>
    cases hs : ms f.ID with
    | none => simp [processData, hft, validateCFMessageFrame, hs] at h
    | some m0 =>
      by_cases hseq : f.sequenceNumber = m0.next
      · rw [processData_CF_accepted ms f m0 hs hft hseq] at h
        split at h
        · simp at h
          exact h.2
        · simp at h
      · simp [processData, hft, validateCFMessageFrame, hs, hseq] at h
  | FC => simp [processData, hft] at h
  | UNKNOWN => simp [processData, hft] at h

/-- C8: for every table, every frame of any kind with identifier `X` and every
identifier `Y ≠ X`, `processData` leaves the entry for `Y` as it was (absent stays
absent, a present session is the same session), and every message it delivers is
for `X`. -/
theorem isolation (ms : MessagesStream) (f : CanFrame) (Y : Nat) (hY : Y ≠ f.ID) :
    (processData ms f).1 Y = ms Y ∧
    ∀ (message : List Nat) (messageID : Nat),
      Output.proceedMessage message messageID ∈ (processData ms f).2 → messageID = f.ID :=
  ⟨processData_other ms f hY, fun message messageID h =>
    processData_message_ID ms f message messageID h⟩

/-- C8, instance: a First Frame for identifier 9 applied to the table that holds
the sample session for identifier 5. -/
theorem isolation_witness :
    (5 : Nat) ≠ (firstFrame 9 20 [1, 2, 3, 4, 5, 6]).ID ∧
    (processData sampleStream (firstFrame 9 20 [1, 2, 3, 4, 5, 6])).1 5 = sampleStream 5 :=
  ⟨by decide, (isolation sampleStream (firstFrame 9 20 [1, 2, 3, 4, 5, 6]) 5 (by decide)).1⟩

/-! ## Single Frames through the decoder -/

/-- C9: for every raw frame with identifier `X` whose first byte has high nibble 0
and low nibble `L ≤ rawBytes.length - 1`, and every table with no session for
`X`, decoding and then applying the frame produces exactly one output, the message
`rawBytes[1 .. 1+L)` for `X`, hence no error, and returns the table unchanged. -/
theorem SF_delivered_immediately (ms : MessagesStream) (X : Nat) (rawBytes : List Nat)
    (pci : Nat) (hpci : rawBytes[0]? = some pci) (hkind : pci >>> 4 = 0)
    (hlen : pci &&& 0x0F ≤ rawBytes.length - 1) (hfree : ms X = none) :
    proceedFrame ms X rawBytes =
      some (ms, [Output.proceedMessage ((rawBytes.drop 1).take (pci &&& 0x0F)) X]) := by
  cases rawBytes with
  | nil => simp at hpci
  | cons b rest =>
    simp at hpci
    subst hpci
    have hnot : ¬ (b &&& 15 > (b :: rest).length - 1) := by
      simp only [gt_iff_lt, not_lt]
      exact hlen
    simp only [proceedFrame, parseCanFrame, hkind, hnot, if_false, processData, hfree,
      CanFrame.new]
    simp

/-- C9, instance: identifier `0x7E8`, bytes `03 12 34 56`, empty table: the
message `12 34 56` is delivered. -/
theorem SF_delivered_immediately_witness :
    proceedFrame MessagesStream.empty 0x7E8 [0x03, 0x12, 0x34, 0x56] =
      some (MessagesStream.empty, [Output.proceedMessage [0x12, 0x34, 0x56] 0x7E8]) :=
  SF_delivered_immediately MessagesStream.empty 0x7E8 [0x03, 0x12, 0x34, 0x56] 0x03
    rfl (by decide) (by decide) rfl

/-- C10, as amended: for every non-empty raw frame whose first byte has high
nibble 0 and low nibble `L > rawBytes.length - 1`, the decoder reports exactly one
error, "Invalid frame data size!" (with the exclamation mark) for the frame's
identifier, and returns a frame of kind Unknown with an empty payload; applying
that frame to any table delivers no message (the only output is the error
"Unknown frame type" for identifier 0) and returns the table unchanged. -/
theorem SF_oversize_rejected (X : Nat) (rawBytes : List Nat) (pci : Nat)
    (hpci : rawBytes[0]? = some pci) (hkind : pci >>> 4 = 0)
    (hlen : pci &&& 0x0F > rawBytes.length - 1) :
    ∃ f : CanFrame,
      parseCanFrame X rawBytes =
        some (f, [Output.printErrorMessage X "Invalid frame data size!"]) ∧
      f.frameType = FrameType.UNKNOWN ∧ f.payload = [] ∧
      ∀ ms : MessagesStream,
        processData ms f = (ms, [Output.printErrorMessage 0 "Unknown frame type"]) := by
  cases rawBytes with
  | nil => simp at hpci
  | cons b rest =>
    simp at hpci
    subst hpci
    have hgt : b &&& 15 > (b :: rest).length - 1 := hlen
    refine ⟨{ CanFrame.new with
                ID := X, data := b :: rest, pci := b, payloadLength := b &&& 0x0F,
                frameType := FrameType.UNKNOWN }, ?_, rfl, rfl, ?_⟩
    · simp only [parseCanFrame, hkind, hgt, if_true]
    · intro ms
      simp [processData]

/-- C10, instance of the amended statement: identifier `0x7E8`, bytes `05 12`
(five bytes announced, one present). -/
theorem SF_oversize_rejected_witness :
    [0x05, 0x12][0]? = some 0x05 ∧ 0x05 >>> 4 = 0 ∧
    0x05 &&& 0x0F > [0x05, 0x12].length - 1 ∧
    ∃ f : CanFrame,
      parseCanFrame 0x7E8 [0x05, 0x12] =
        some (f, [Output.printErrorMessage 0x7E8 "Invalid frame data size!"]) ∧
      f.frameType = FrameType.UNKNOWN ∧ f.payload = [] ∧
      ∀ ms : MessagesStream,
        processData ms f = (ms, [Output.printErrorMessage 0 "Unknown frame type"]) :=
  ⟨rfl, by decide, by decide,
    SF_oversize_rejected 0x7E8 [0x05, 0x12] 0x05 rfl (by decide) (by decide)⟩

/-- C10 fails as stated in the text of the error: for identifier `0x7E8` and bytes
`05 12` the decoder prints "Invalid frame data size!", which is not the text
"Invalid frame data size". -/
theorem SF_oversize_error_text :
    Option.map Prod.snd (parseCanFrame 0x7E8 [0x05, 0x12]) =
      some [Output.printErrorMessage 0x7E8 "Invalid frame data size!"] ∧
    Option.map Prod.snd (parseCanFrame 0x7E8 [0x05, 0x12]) ≠
      some [Output.printErrorMessage 0x7E8 "Invalid frame data size"] := by
  decide

/-! ## Protocol violations and truncation -/

/-- C11: for every table that holds a session for the frame's identifier and every
Single Frame for that identifier, `processData` removes the session, reports the
error "Message reset!" for the identifier as its only output, and so delivers no
message: the payload of the Single Frame is dropped. -/
theorem SF_resets_session (ms : MessagesStream) (f : CanFrame) (m : Message)
    (hk : ms f.ID = some m) (ht : f.frameType = FrameType.SF) :
    processData ms f = (ms.erase f.ID, [Output.printErrorMessage f.ID "Message reset!"]) ∧
    (processData ms f).1 f.ID = none := by
  have h : processData ms f =
      (ms.erase f.ID, [Output.printErrorMessage f.ID "Message reset!"]) := by
    simp [processData, ht, hk]
  exact ⟨h, by rw [h]; exact MessagesStream.erase_same ms f.ID⟩

/-- C11, instance: the Single Frame `02 AA BB` for identifier 5 meets the sample
session. -/
theorem SF_resets_session_witness :
    sampleStream 5 = some sampleSession ∧
    (processData sampleStream
        { CanFrame.new with
            ID := 5, frameType := FrameType.SF, pci := 2, payloadLength := 2,
            data := [2, 0xAA, 0xBB], payload := [0xAA, 0xBB] }).2 =
      [Output.printErrorMessage 5 "Message reset!"] ∧
    (processData sampleStream
        { CanFrame.new with
            ID := 5, frameType := FrameType.SF, pci := 2, payloadLength := 2,
            data := [2, 0xAA, 0xBB], payload := [0xAA, 0xBB] }).1 5 = none :=
  have h := SF_resets_session sampleStream
    { CanFrame.new with
        ID := 5, frameType := FrameType.SF, pci := 2, payloadLength := 2,
        data := [2, 0xAA, 0xBB], payload := [0xAA, 0xBB] }
    sampleSession rfl rfl
  ⟨rfl, congrArg Prod.snd h.1, h.2⟩

/-- C12: for every table with no session for the frame's identifier and every
Consecutive Frame for it, whatever its sequence number and payload, `processData`
reports the error "Invalid CF Frame!" for the identifier as its only output,
delivers no message and returns the table unchanged, so no session is created. -/
theorem CF_without_session_rejected (ms : MessagesStream) (f : CanFrame)
    (hk : ms f.ID = none) (ht : f.frameType = FrameType.CF) :
    processData ms f = (ms, [Output.printErrorMessage f.ID "Invalid CF Frame!"]) ∧
    (processData ms f).1 f.ID = none := by
  have h : processData ms f = (ms, [Output.printErrorMessage f.ID "Invalid CF Frame!"]) := by
    simp [processData, ht, validateCFMessageFrame, hk]
  exact ⟨h, by rw [h]; exact hk⟩

/-- C12, instance: a Consecutive Frame for identifier 9 meets the table that only
holds the sample session for identifier 5. -/
theorem CF_without_session_rejected_witness :
    sampleStream (consecutiveFrame 9 1 [7, 8, 9]).ID = none ∧
    processData sampleStream (consecutiveFrame 9 1 [7, 8, 9]) =
      (sampleStream,
        [Output.printErrorMessage (consecutiveFrame 9 1 [7, 8, 9]).ID "Invalid CF Frame!"]) ∧
    (processData sampleStream (consecutiveFrame 9 1 [7, 8, 9])).1
      (consecutiveFrame 9 1 [7, 8, 9]).ID = none :=
  ⟨rfl, CF_without_session_rejected sampleStream (consecutiveFrame 9 1 [7, 8, 9]) rfl rfl⟩

/-- C13, as amended: for every identifier and every table, a frame without data
bytes delivers no message and leaves the table unchanged, but it is not silent:
the decoder returns a frame of kind Unknown and `processData` reports the error
"Unknown frame type" for identifier 0. -/
theorem empty_frame_reports_unknown (ms : MessagesStream) (X : Nat) :
    parseCanFrame X [] = some ({ CanFrame.new with ID := X }, []) ∧
    proceedFrame ms X [] = some (ms, [Output.printErrorMessage 0 "Unknown frame type"]) := by
  constructor
  · rfl
  · rfl

/-- C13 fails as stated: for identifier `0x7E8` without data bytes, from the empty
table, the outputs are not empty; the error "Unknown frame type" is reported. -/
theorem empty_frame_not_silent :
    Option.map Prod.snd (proceedFrame MessagesStream.empty 0x7E8 []) =
      some [Output.printErrorMessage 0 "Unknown frame type"] ∧
    Option.map Prod.snd (proceedFrame MessagesStream.empty 0x7E8 []) ≠ some [] := by
  decide

/-- C14: for every session with `r = length - received` outstanding bytes,
`0 < r ≤ 7`, and every Consecutive Frame for its identifier with the expected
sequence number whose payload has more than `r` bytes (and at most eight), the
frame is not rejected: `processData` appends only the first `r` payload bytes,
delivers the resulting buffer as its only output and removes the session. -/
theorem CF_overrun_truncated (ms : MessagesStream) (f : CanFrame) (m : Message)
    (hk : ms f.ID = some m) (ht : f.frameType = FrameType.CF)
    (hs : f.sequenceNumber = m.next) (hlen16 : m.length < 65536)
    (hr0 : 0 < m.length - m.received) (hr7 : m.length - m.received ≤ 7)
    (hmore : m.length - m.received < f.payload.length)
    (hsize : f.payload.length ≤ CAN_MAX_DATA) :
    processData ms f =
      (ms.erase f.ID,
        [Output.proceedMessage
          (m.messageBuffer ++ f.payload.take (m.length - m.received)) f.ID]) ∧
    (processData ms f).1 f.ID = none := by
  have hstep := processData_CF_accepted ms f m hk ht hs
  have h8 : f.payload.length ≤ 8 := hsize
  have hsub : sub16 m.length m.received = m.length - m.received := by
    unfold sub16; omega
  have hmod : f.payload.length % 65536 = f.payload.length := by omega
  have hmin : min 7 (m.length - m.received) = m.length - m.received := by omega
  have hclamp : min (m.length - m.received) f.payload.length = m.length - m.received := by
    omega
  have hrec : (m.received + (m.length - m.received)) % 65536 = m.length := by omega
  have hadv : advance m f =
      { m with
          messageBuffer := m.messageBuffer ++ f.payload.take (m.length - m.received),
          received := m.length,
          next := (m.next + 1) &&& 0x0F } := by
    simp only [advance, CF_PAYLOAD, CAN_MAX_DATA, Nat.reduceSub, hsub, hmod, hmin, hclamp,
      hrec]
  rw [hadv] at hstep
  simp only [ge_iff_le, le_refl, if_true] at hstep
  exact ⟨hstep, by rw [hstep]; exact MessagesStream.erase_same ms f.ID⟩

/-! ## The decoder -/

theorem parseCanFrame_eq_none_iff (ID : Nat) (data : List Nat) :
    parseCanFrame ID data = none ↔ ∃ pci, data = [pci] ∧ pci >>> 4 = 1 := by
  cases data with
  | nil => simp [parseCanFrame]
  | cons pci rest =>
    simp only [parseCanFrame]
    split
    · split <;> simp_all
    · cases rest with
      | nil => simp_all
      | cons b tl => simp
    · simp
      intro h
      simp_all
    · split <;> simp_all
    · simp
      intro h
      simp_all

theorem parseCanFrame_ID_data {ID : Nat} {data : List Nat} {f : CanFrame}
    {errors : List Output} (h : parseCanFrame ID data = some (f, errors)) :
    f.ID = ID ∧ f.data = data := by
  cases data with
  | nil =>
    simp [parseCanFrame, CanFrame.new] at h
    rw [← h.1]
    exact ⟨rfl, rfl⟩
  | cons pci rest =>
    simp only [parseCanFrame, CanFrame.new] at h
    split at h
    · split at h <;>
      · simp at h
        rw [← h.1]
        exact ⟨rfl, rfl⟩
    · split at h
      · simp at h
      · simp at h
        rw [← h.1]
        exact ⟨rfl, rfl⟩
    · simp at h
      rw [← h.1]
      exact ⟨rfl, rfl⟩
    · split at h <;>
      · simp at h
        rw [← h.1]
        exact ⟨rfl, rfl⟩
    · simp at h
      rw [← h.1]
      exact ⟨rfl, rfl⟩

/-- C17, the code at the failing input: for identifier `0x7E8` and the single data
byte `10` (a First Frame PCI with nothing behind it, text line `7E810`) the
decoder reads `data[1]` and slices `data[2..]` outside the one-byte sequence, so
no frame is returned. -/
theorem FF_single_byte_reads_outside :
    [0x10].length ≤ CAN_MAX_DATA ∧
    parseCanFrame 0x7E8 [0x10] = none ∧
    parseCanFrameLine "7E810".toList = Except.ok none :=
  ⟨by decide, by decide, rfl⟩

/-- C18: for every raw frame `pci, b1, ...` of at least two bytes, each below 256:
high nibble 1 gives kind FF with `payloadLength = ((pci & 0x0F) << 8) | b1`, below
4096, and `payload = rawBytes[2..]`; high nibble 2 gives kind CF with
`sequenceNumber = pci & 0x0F`, `payload = rawBytes[1..]` and
`payloadLength = rawBytes.length - 1`; high nibble 3 gives kind FC with
`fcStatus = (b1 >> 5) & 0x07`, `fcBlockSize = rawBytes[2]`, `fcSTmin = rawBytes[3]`
when at least three bytes follow the PCI and kind Unknown otherwise; every high
nibble from 4 on gives kind Unknown.  No error is printed in any of these cases. -/
theorem decoder_non_SF_kinds (ID pci b1 : Nat) (rest : List Nat)
    (hbytes : ∀ b ∈ pci :: b1 :: rest, b < 256) :
    (pci >>> 4 = 1 →
      ∃ f, parseCanFrame ID (pci :: b1 :: rest) = some (f, []) ∧
        f.frameType = FrameType.FF ∧
        f.payloadLength = ((pci &&& 0x0F) <<< 8) ||| b1 ∧ f.payloadLength < 4096 ∧
        f.payload = (pci :: b1 :: rest).drop 2) ∧
    (pci >>> 4 = 2 →
      ∃ f, parseCanFrame ID (pci :: b1 :: rest) = some (f, []) ∧
        f.frameType = FrameType.CF ∧ f.sequenceNumber = pci &&& 0x0F ∧
        f.payload = (pci :: b1 :: rest).drop 1 ∧
        f.payloadLength = (pci :: b1 :: rest).length - 1) ∧
    (pci >>> 4 = 3 → 3 ≤ (pci :: b1 :: rest).length - 1 →
      ∃ f, parseCanFrame ID (pci :: b1 :: rest) = some (f, []) ∧
        f.frameType = FrameType.FC ∧ f.fcStatus = (b1 >>> 5) &&& 0x07 ∧
        (pci :: b1 :: rest)[2]? = some f.fcBlockSize ∧
        (pci :: b1 :: rest)[3]? = some f.fcSTmin) ∧
    (pci >>> 4 = 3 → (pci :: b1 :: rest).length - 1 < 3 →
      ∃ f, parseCanFrame ID (pci :: b1 :: rest) = some (f, []) ∧
        f.frameType = FrameType.UNKNOWN) ∧
    (4 ≤ pci >>> 4 →
      pci >>> 4 ≤ 15 ∧
      ∃ f, parseCanFrame ID (pci :: b1 :: rest) = some (f, []) ∧
        f.frameType = FrameType.UNKNOWN) := by
  have hpci : pci < 256 := hbytes pci (List.mem_cons_self _ _)
  have hb1 : b1 < 256 := hbytes b1 (List.mem_cons_of_mem _ (List.mem_cons_self _ _))
  refine ⟨?_, ?_, ?_, ?_, ?_⟩
  · intro h
    refine ⟨{ CanFrame.new with
                ID := ID, data := pci :: b1 :: rest, pci := pci,
                frameType := FrameType.FF,
                payloadLength := ((pci &&& 0x0F) <<< 8) ||| b1,
                payload := rest }, ?_, rfl, rfl, ?_, rfl⟩
    · simp [parseCanFrame, h]
    · show ((pci &&& 15) <<< 8) ||| b1 < 2 ^ 12
      have hand : pci &&& 15 ≤ 15 := Nat.and_le_right
      have hs : (pci &&& 15) <<< 8 < 2 ^ 12 := by
        rw [Nat.shiftLeft_eq]
        omega
      exact Nat.or_lt_two_pow hs (by omega)
  · intro h
    refine ⟨{ CanFrame.new with
                ID := ID, data := pci :: b1 :: rest, pci := pci,
                frameType := FrameType.CF,
                sequenceNumber := pci &&& 0x0F,
                payloadLength := (pci :: b1 :: rest).length - 1,
                payload := b1 :: rest }, ?_, rfl, rfl, rfl, rfl⟩
    simp [parseCanFrame, h]
  · intro h h3
    match rest, h3 with
    | b2 :: b3 :: tl, _ =>
      refine ⟨{ CanFrame.new with
                  ID := ID, data := pci :: b1 :: b2 :: b3 :: tl, pci := pci,
                  frameType := FrameType.FC,
                  payload := b1 :: b2 :: b3 :: tl,
                  fcStatus := (b1 >>> 5) &&& 0x07,
                  fcBlockSize := b2,
                  fcSTmin := b3 }, ?_, rfl, rfl, ?_, ?_⟩
      · simp [parseCanFrame, h]
      · simp
      · simp
  · intro h h3
    have hlt : rest.length + 1 < 3 := by
      simp only [List.length_cons] at h3
      omega
    refine ⟨{ CanFrame.new with
                ID := ID, data := pci :: b1 :: rest, pci := pci,
                frameType := FrameType.UNKNOWN,
                payload := b1 :: rest }, ?_, rfl⟩
    simp [parseCanFrame, h, hlt]
  · intro h
    have h15 : pci >>> 4 ≤ 15 := by
      rw [Nat.shiftRight_eq_div_pow]
      omega
    refine ⟨h15, ?_⟩
    have h0 : pci >>> 4 ≠ 0 := by omega
    have h1 : pci >>> 4 ≠ 1 := by omega
    have h2 : pci >>> 4 ≠ 2 := by omega
    have h3 : pci >>> 4 ≠ 3 := by omega
    refine ⟨{ CanFrame.new with ID := ID, data := pci :: b1 :: rest, pci := pci }, ?_, rfl⟩
    simp only [parseCanFrame]
    rfl

/-- C18, instance: the Flow Control frame `30 40 08 14` for identifier `0x7E8`
(three bytes behind the PCI). -/
theorem decoder_non_SF_kinds_witness :
    (∀ b ∈ [0x30, 0x40, 0x08, 0x14], b < 256) ∧
    ∃ f, parseCanFrame 0x7E8 [0x30, 0x40, 0x08, 0x14] = some (f, []) ∧
      f.frameType = FrameType.FC ∧ f.fcStatus = (0x40 >>> 5) &&& 0x07 ∧
      [0x30, 0x40, 0x08, 0x14][2]? = some f.fcBlockSize ∧
      [0x30, 0x40, 0x08, 0x14][3]? = some f.fcSTmin :=
  ⟨by decide,
    (decoder_non_SF_kinds 0x7E8 0x30 0x40 [0x08, 0x14] (by decide)).2.2.1
      (by decide) (by decide)⟩

/-! ## Truncation, end to end -/

/-- C14, instance: the session opened by the line `1FF1008112233445566` (eight
bytes declared, six received) takes the Consecutive Frame of the line
`1FF21778899`, whose three payload bytes exceed the two outstanding ones; end to
end, the two lines deliver `11 22 33 44 55 66 77 88` for `0x1FF` and leave no
session. -/
theorem CF_overrun_truncated_witness :
    processData
        (MessagesStream.empty.store 0x1FF
          { ID := 0x1FF, messageBuffer := [0x11, 0x22, 0x33, 0x44, 0x55, 0x66],
            length := 8, received := 6, next := 1 })
        (consecutiveFrame 0x1FF 1 [0x77, 0x88, 0x99]) =
      ((MessagesStream.empty.store 0x1FF
          { ID := 0x1FF, messageBuffer := [0x11, 0x22, 0x33, 0x44, 0x55, 0x66],
            length := 8, received := 6, next := 1 }).erase 0x1FF,
        [Output.proceedMessage [0x11, 0x22, 0x33, 0x44, 0x55, 0x66, 0x77, 0x88] 0x1FF]) ∧
    observeLines ["1FF1008112233445566", "1FF21778899"] 0x1FF =
      some (none,
        [Output.proceedMessage [0x11, 0x22, 0x33, 0x44, 0x55, 0x66, 0x77, 0x88] 0x1FF]) :=
  ⟨(CF_overrun_truncated
      (MessagesStream.empty.store 0x1FF
        { ID := 0x1FF, messageBuffer := [0x11, 0x22, 0x33, 0x44, 0x55, 0x66],
          length := 8, received := 6, next := 1 })
      (consecutiveFrame 0x1FF 1 [0x77, 0x88, 0x99])
      { ID := 0x1FF, messageBuffer := [0x11, 0x22, 0x33, 0x44, 0x55, 0x66],
        length := 8, received := 6, next := 1 }
      rfl rfl rfl (by decide) (by decide) (by decide) (by decide) (by decide)).1,
    by decide⟩

/-! ## Lifecycle of sessions -/

theorem openOrFresh_empty : OpenOrFresh MessagesStream.empty := by
  intro k m h
  simp [MessagesStream.empty] at h

theorem openOrFresh_processData {ms : MessagesStream} (h : OpenOrFresh ms) (f : CanFrame) :
    OpenOrFresh (processData ms f).1 := by
  intro k m hm
  by_cases hk : k = f.ID
  · subst hk
    cases hft : f.frameType with
    | SF =>
      simp only [processData, hft] at hm
      split at hm
      · simp [MessagesStream.erase] at hm
      · exact h _ m hm
    | FF =>
      rw [processData_FF ms f hft] at hm
      simp [MessagesStream.store] at hm
      rw [← hm]
      simp only [FF_PAYLOAD, CAN_MAX_DATA, Nat.reduceSub]
      by_cases h6 : f.payloadLength ≤ 6
      · right
        exact ⟨by omega, h6, trivial⟩
      · left
        omega
    | CF =>
      cases hs : ms f.ID with
      | none =>
        simp [processData, hft, validateCFMessageFrame, hs] at hm
      | some m0 =>
        by_cases hseq : f.sequenceNumber = m0.next
        · rw [processData_CF_accepted ms f m0 hs hft hseq] at hm
          split at hm
          · simp [MessagesStream.erase] at hm
          · rename_i hnot
            simp [MessagesStream.store] at hm
            rw [← hm]
            left
            simp only [advance] at hnot ⊢
            omega
        · simp [processData, hft, validateCFMessageFrame, hs, hseq] at hm
          rw [← hm]
          exact h _ m0 hs
    | FC =>
      simp only [processData, hft] at hm
      exact h _ m hm
    | UNKNOWN =>
      simp only [processData, hft] at hm
      exact h _ m hm
  · rw [processData_other ms f hk] at hm
    exact h k m hm

theorem openOrFresh_processAll (frames : List CanFrame) :
    ∀ (ms : MessagesStream), OpenOrFresh ms → OpenOrFresh (processAll ms frames).1 := by
  induction frames with
  | nil =>
    intro ms h
    exact h
  | cons f rest ih =>
    intro ms h
    simp only [processAll]
    exact ih _ (openOrFresh_processData h f)

/-- C19, as amended: in every table reached from the empty table by applying any
sequence of frames (decoded or not), a stored session is complete
(`received = length`) only in the state a First Frame that declared at most six
bytes left it in (`length ≤ 6`, `next = 1`); every other stored session has
`received < length`.  A stored session whose `received` reaches `length` through
an accepted Consecutive Frame is delivered and removed. -/
theorem stored_session_open_or_fresh (frames : List CanFrame) (ID : Nat) (m : Message)
    (hm : (processAll MessagesStream.empty frames).1 ID = some m) :
    (m.received < m.length ∨ (m.received = m.length ∧ m.length ≤ 6 ∧ m.next = 1)) ∧
    ∀ f : CanFrame, f.ID = ID → f.frameType = FrameType.CF → f.sequenceNumber = m.next →
      m.length ≤ (m.received + min 7 (sub16 m.length m.received)) % 65536 →
      (processData (processAll MessagesStream.empty frames).1 f).1 ID = none ∧
      ∃ buffer : List Nat,
        (processData (processAll MessagesStream.empty frames).1 f).2 =
          [Output.proceedMessage buffer ID] := by
  refine ⟨openOrFresh_processAll frames MessagesStream.empty openOrFresh_empty ID m hm, ?_⟩
  intro f hid ht hs hdone
  subst hid
  have hstep := processData_CF_accepted _ f m hm ht hs
  have hge : (advance m f).received ≥ m.length := by
    simp only [advance, CF_PAYLOAD, CAN_MAX_DATA, Nat.reduceSub]
    exact hdone
  rw [if_pos hge] at hstep
  rw [hstep]
  exact ⟨MessagesStream.erase_same _ _, ⟨_, rfl⟩⟩

/-- C19, instance of the amended statement: the table reached by the First Frame
`10 14 01 .. 06` for identifier 5 stores the sample session, which is incomplete
(6 of 20). -/
theorem stored_session_open_or_fresh_witness :
    (processAll MessagesStream.empty [firstFrame 5 20 [1, 2, 3, 4, 5, 6]]).1 5 =
      some sampleSession ∧
    (sampleSession.received < sampleSession.length ∨
      (sampleSession.received = sampleSession.length ∧ sampleSession.length ≤ 6 ∧
        sampleSession.next = 1)) :=
  ⟨by decide,
    (stored_session_open_or_fresh [firstFrame 5 20 [1, 2, 3, 4, 5, 6]] 5 sampleSession
      (by decide)).1⟩

/-- C19 fails as stated: the decoded First Frame `10 03 01 02 03` for identifier
`0x2A0`, applied to the empty table, leaves a stored session with
`received = length = 3`; nothing is delivered. -/
theorem complete_session_stays_stored :
    observe [(0x2A0, [0x10, 0x03, 0x01, 0x02, 0x03])] 0x2A0 =
      some (some
        { ID := 0x2A0, messageBuffer := [0x01, 0x02, 0x03], length := 3, received := 3,
          next := 1 }, []) := by
  decide

/-! ## The sequence counter -/

theorem next_after_accepted (X : Nat) (frames : List CanFrame) :
    ∀ (ms : MessagesStream) (m : Message) (j : Nat),
      ms X = some m → m.next = (1 + j) % 16 →
      acceptedWithoutCompletion X ms frames = true →
      ∃ m2 : Message,
        (processAll ms frames).1 X = some m2 ∧
        m2.next = (1 + j + (frames.filter (fun f => f.ID = X)).length) % 16 := by
  induction frames with
  | nil =>
    intro ms m j hk hn _
    exact ⟨m, hk, by simpa using hn⟩
  | cons f rest ih =>
    intro ms m j hk hn hacc
    simp only [acceptedWithoutCompletion, Bool.and_eq_true] at hacc
    obtain ⟨hhead, htail⟩ := hacc
    by_cases hid : f.ID = X
    · simp only [hid, if_true, hk, Bool.and_eq_true, decide_eq_true_eq] at hhead
      obtain ⟨⟨ht, hseq⟩, hsome⟩ := hhead
      have hkf : ms f.ID = some m := by rw [hid]; exact hk
      have hstep := processData_CF_accepted ms f m hkf ht hseq
      by_cases hge : (advance m f).received ≥ m.length
      · rw [if_pos hge] at hstep
        rw [hstep, hid] at hsome
        simp [MessagesStream.erase] at hsome
      · rw [if_neg hge] at hstep
        have hstored : (processData ms f).1 X = some (advance m f) := by
          rw [hstep, hid]
          exact MessagesStream.store_same ms X _
        have hnext : (advance m f).next = (1 + (j + 1)) % 16 := by
          have hand : (m.next + 1) &&& 15 = (m.next + 1) % 16 := by
            simpa using Nat.and_pow_two_sub_one_eq_mod (m.next + 1) 4
          simp only [advance]
          rw [hand, hn]
          omega
        obtain ⟨m2, h2, hn2⟩ := ih (processData ms f).1 (advance m f) (j + 1) hstored hnext htail
        refine ⟨m2, by simpa only [processAll] using h2, ?_⟩
        rw [hn2]
        simp only [List.filter_cons, hid, decide_True, if_true, List.length_cons]
        congr 1
        omega
    · have hXf : X ≠ f.ID := fun h => hid h.symm
      have hkeep : (processData ms f).1 X = some m := by
        rw [processData_other ms f hXf]
        exact hk
      obtain ⟨m2, h2, hn2⟩ := ih (processData ms f).1 m j hkeep hn htail
      refine ⟨m2, by simpa only [processAll] using h2, ?_⟩
      rw [hn2]
      simp [List.filter_cons, hid]

/-- C20: after a First Frame for identifier `X` followed by frames among which
those for `X` are `k` Consecutive Frames, each accepted and none completing the
message, the session for `X` is stored and its `next` equals `(1 + k) mod 16`,
a value in 0..15: with `k = 0` the first Consecutive Frame must carry 1, and the
one after sequence number 15 must carry 0. -/
theorem sequence_counter (ms : MessagesStream) (g : CanFrame) (frames : List CanFrame)
    (X : Nat) (hg : g.frameType = FrameType.FF) (hX : g.ID = X)
    (hacc : acceptedWithoutCompletion X (processData ms g).1 frames = true) :
    ∃ m : Message,
      (processAll ms (g :: frames)).1 X = some m ∧
      m.next = (1 + (frames.filter (fun f => f.ID = X)).length) % 16 ∧
      m.next < 16 := by
  have hff := processData_FF ms g hg
  have hstored : (processData ms g).1 X =
      some
        { ID := g.ID,
          messageBuffer :=
            (ms.at g.ID).messageBuffer ++
              g.payload.take (min (min FF_PAYLOAD g.payloadLength) (g.payload.length % 65536)),
          length := g.payloadLength,
          received := min FF_PAYLOAD g.payloadLength,
          next := 1 } := by
    rw [hff, ← hX]
    exact MessagesStream.store_same ms g.ID _
  obtain ⟨m, h1, h2⟩ := next_after_accepted X frames (processData ms g).1 _ 0 hstored rfl hacc
  refine ⟨m, by simpa only [processAll] using h1, ?_, ?_⟩
  · rw [h2]
  · rw [h2]
    omega

/-- C20, instance: after the First Frame for identifier 5 that declares 200 bytes,
sixteen Consecutive Frames numbered 1, 2, ..., 15, 0 are accepted without
completing the message, and the counter is back at `(1 + 16) mod 16 = 1`. -/
theorem sequence_counter_witness :
    acceptedWithoutCompletion 5
        (processData MessagesStream.empty (firstFrame 5 200 [1, 2, 3, 4, 5, 6])).1
        (consecutiveFrames 5 16 1 (List.replicate 112 0)) = true ∧
    ∃ m : Message,
      (processAll MessagesStream.empty
          (firstFrame 5 200 [1, 2, 3, 4, 5, 6] ::
            consecutiveFrames 5 16 1 (List.replicate 112 0))).1 5 = some m ∧
      m.next = 1 ∧ m.next < 16 := by
  have hacc : acceptedWithoutCompletion 5
      (processData MessagesStream.empty (firstFrame 5 200 [1, 2, 3, 4, 5, 6])).1
      (consecutiveFrames 5 16 1 (List.replicate 112 0)) = true := by decide
  obtain ⟨m, h1, h2, h3⟩ :=
    sequence_counter MessagesStream.empty (firstFrame 5 200 [1, 2, 3, 4, 5, 6])
      (consecutiveFrames 5 16 1 (List.replicate 112 0)) 5 rfl rfl hacc
  have hcount :
      ((consecutiveFrames 5 16 1 (List.replicate 112 0)).filter
        (fun f => f.ID = 5)).length = 16 := by decide
  rw [hcount] at h2
  exact ⟨hacc, m, h1, h2, h3⟩

/-! ## The text front end -/

theorem hexDigit_some {c : Char} {v : Nat} (h : hexDigit c = some v) :
    v < 16 ∧ isSpace c = false ∧ c.toNat ≠ 45 ∧ c.toNat ≠ 43 ∧ c.toNat ≠ 120 ∧
      c.toNat ≠ 88 := by
  unfold hexDigit at h
  simp only at h
  unfold isSpace
  split at h
  · simp only [Option.some.injEq] at h
    refine ⟨by omega, ?_, by omega, by omega, by omega, by omega⟩
    simp only [Bool.or_eq_false_iff, Bool.and_eq_false_iff, decide_eq_false_iff_not]
    omega
  · split at h
    · simp only [Option.some.injEq] at h
      refine ⟨by omega, ?_, by omega, by omega, by omega, by omega⟩
      simp only [Bool.or_eq_false_iff, Bool.and_eq_false_iff, decide_eq_false_iff_not]
      omega
    · split at h
      · simp only [Option.some.injEq] at h
        refine ⟨by omega, ?_, by omega, by omega, by omega, by omega⟩
        simp only [Bool.or_eq_false_iff, Bool.and_eq_false_iff, decide_eq_false_iff_not]
        omega
      · simp at h

theorem stoul_two_digits {c1 c2 : Char} {v1 v2 : Nat} (h1 : hexDigit c1 = some v1)
    (h2 : hexDigit c2 = some v2) :
    stoul [c1, c2] = Except.ok (v1 * 16 + v2) := by
  obtain ⟨hv1, hs1, hm1, hp1, _, _⟩ := hexDigit_some h1
  obtain ⟨hv2, _, _, _, _, _⟩ := hexDigit_some h2
  simp [stoul, List.dropWhile, hs1, readSign, hm1, hp1, skipHexMark, readDigits, h1, h2]
  omega

theorem stoul_three_digits {c1 c2 c3 : Char} {v1 v2 v3 : Nat} (h1 : hexDigit c1 = some v1)
    (h2 : hexDigit c2 = some v2) (h3 : hexDigit c3 = some v3) :
    stoul [c1, c2, c3] = Except.ok ((v1 * 16 + v2) * 16 + v3) := by
  obtain ⟨hv1, hs1, hm1, hp1, _, _⟩ := hexDigit_some h1
  obtain ⟨hv2, _, _, _, hx2, hX2⟩ := hexDigit_some h2
  obtain ⟨hv3, _, _, _, _, _⟩ := hexDigit_some h3
  simp [stoul, List.dropWhile, hs1, readSign, hm1, hp1, skipHexMark, hx2, hX2, readDigits,
    h1, h2, h3]
  omega

theorem drop_pair {s : List Char} {i : Nat} {c1 c2 : Char} {tl : List Char}
    (hd : s.drop i = c1 :: c2 :: tl) :
    i + 1 < s.length ∧ ¬ (i > s.length) ∧ s.drop (i + 2) = tl := by
  have hlen := congrArg List.length hd
  simp only [List.length_drop, List.length_cons] at hlen
  refine ⟨by omega, by omega, ?_⟩
  have h2 : s.drop (i + 2) = (s.drop i).drop 2 := by
    rw [List.drop_drop, Nat.add_comm]
  rw [h2, hd]
  rfl

theorem digitPairs_of_short {s : List Char} {i : Nat} (h : ¬ (i + 1 < s.length)) :
    digitPairs (s.drop i) = [] := by
  have hlen : (s.drop i).length ≤ 1 := by
    rw [List.length_drop]
    omega
  match hd : s.drop i with
  | [] => rfl
  | [c] => rfl
  | c1 :: c2 :: tl =>
    rw [hd] at hlen
    simp at hlen

theorem hexByte_two_digits {s : List Char} {i : Nat} {c1 c2 : Char} {tl : List Char}
    {v1 v2 : Nat} (hd : s.drop i = c1 :: c2 :: tl) (h1 : hexDigit c1 = some v1)
    (h2 : hexDigit c2 = some v2) :
    hexByte s i = Except.ok (hexValue [c1, c2]) := by
  obtain ⟨_, hpos, _⟩ := drop_pair hd
  have hv1 := (hexDigit_some h1).1
  have hv2 := (hexDigit_some h2).1
  have hmod : (v1 * 16 + v2) % 256 = v1 * 16 + v2 := by omega
  simp [hexByte, hpos, hd, stoul_two_digits h1 h2, hexValue, h1, h2, hmod]

theorem readData_of_digits (s : List Char) :
    ∀ (fuel i : Nat) (data : List Nat),
      (∀ c ∈ s.drop i, (hexDigit c).isSome = true) → data.length + fuel = 8 →
      readData s fuel i data =
        Except.ok (data ++ ((digitPairs (s.drop i)).take fuel).map hexValue) := by
  intro fuel
  induction fuel with
  | zero =>
    intro i data _ _
    simp [readData]
  | succ fuel ih =>
    intro i data hhex hlen
    by_cases hi : i + 1 < s.length
    · match hd : s.drop i with
      | [] =>
        have := congrArg List.length hd
        simp only [List.length_drop, List.length_nil] at this
        omega
      | [c] =>
        have := congrArg List.length hd
        simp only [List.length_drop, List.length_cons, List.length_nil] at this
        omega
      | c1 :: c2 :: tl =>
        obtain ⟨_, _, htl⟩ := drop_pair hd
        have hc1 : (hexDigit c1).isSome = true := hhex c1 (by rw [hd]; simp)
        have hc2 : (hexDigit c2).isSome = true := hhex c2 (by rw [hd]; simp)
        obtain ⟨v1, h1⟩ := Option.isSome_iff_exists.mp hc1
        obtain ⟨v2, h2⟩ := Option.isSome_iff_exists.mp hc2
        have hb := hexByte_two_digits hd h1 h2
        have htail : ∀ c ∈ s.drop (i + 2), (hexDigit c).isSome = true := by
          intro c hc
          apply hhex c
          rw [hd]
          rw [htl] at hc
          simp [hc]
        simp only [readData, hi, if_true, hb, digitPairs, List.take_succ_cons, List.map_cons]
        by_cases h8 : (data ++ [hexValue [c1, c2]]).length = 8
        · have hf : fuel = 0 := by
            simp only [List.length_append, List.length_singleton] at h8
            omega
          simp [h8, hf]
        · have hnext := ih (i + 2) (data ++ [hexValue [c1, c2]]) htail
            (by simp only [List.length_append, List.length_singleton]; omega)
          simp only [h8, if_false, hnext, htl]
          simp
    · simp [readData, hi, digitPairs_of_short hi]

theorem digitPairs_length : ∀ (s : List Char), (digitPairs s).length = s.length / 2
  | [] => by simp [digitPairs]
  | [_] => by simp [digitPairs]
  | _ :: _ :: rest => by
    simp only [digitPairs, List.length_cons, digitPairs_length rest]
    omega

/-- The reading step on hexadecimal lines: for every line made of three
hexadecimal digits followed by `m` hexadecimal digits, lines 31-38 of
`parseCanFrame` throw nothing and read the identifier equal to the numeric value
of the first three digits, below `0x1000`, and as data the bytes denoted by the
first `min(m / 2, 8)` digit pairs behind the identifier, in order; a trailing
unpaired digit and everything behind the eighth byte are ignored.  The decoder is
then run on exactly that identifier and data, and every frame it returns carries
them in `ID` and `data`. -/
theorem readFrame_of_digits (d1 d2 d3 : Char) (rest : List Char)
    (hid : ∀ c ∈ [d1, d2, d3], (hexDigit c).isSome = true)
    (hrest : ∀ c ∈ rest, (hexDigit c).isSome = true) :
    readFrame (d1 :: d2 :: d3 :: rest) =
      Except.ok (hexValue [d1, d2, d3], ((digitPairs rest).take 8).map hexValue) ∧
    hexValue [d1, d2, d3] < 0x1000 ∧
    (((digitPairs rest).take 8).map hexValue).length = min (rest.length / 2) 8 ∧
    parseCanFrameLine (d1 :: d2 :: d3 :: rest) =
      Except.ok
        (parseCanFrame (hexValue [d1, d2, d3]) (((digitPairs rest).take 8).map hexValue)) ∧
    ∀ (f : CanFrame) (errors : List Output),
      parseCanFrameLine (d1 :: d2 :: d3 :: rest) = Except.ok (some (f, errors)) →
      f.ID = hexValue [d1, d2, d3] ∧ f.data = ((digitPairs rest).take 8).map hexValue := by
  obtain ⟨v1, h1⟩ := Option.isSome_iff_exists.mp (hid d1 (by simp))
  obtain ⟨v2, h2⟩ := Option.isSome_iff_exists.mp (hid d2 (by simp))
  obtain ⟨v3, h3⟩ := Option.isSome_iff_exists.mp (hid d3 (by simp))
  have hv1 := (hexDigit_some h1).1
  have hv2 := (hexDigit_some h2).1
  have hv3 := (hexDigit_some h3).1
  have hval : hexValue [d1, d2, d3] = (v1 * 16 + v2) * 16 + v3 := by
    simp [hexValue, h1, h2, h3]
  have hlt : hexValue [d1, d2, d3] < 0x1000 := by
    rw [hval]
    omega
  have hdata := readData_of_digits (d1 :: d2 :: d3 :: rest) 8 3 [] (by simpa using hrest) rfl
  have hread : readFrame (d1 :: d2 :: d3 :: rest) =
      Except.ok (hexValue [d1, d2, d3], ((digitPairs rest).take 8).map hexValue) := by
    have hmod : ((v1 * 16 + v2) * 16 + v3) % 65536 = (v1 * 16 + v2) * 16 + v3 := by omega
    simp only [readFrame, List.take_succ_cons, List.take_zero, stoul_three_digits h1 h2 h3,
      hdata, hmod, hval]
    simp
  have hparse : parseCanFrameLine (d1 :: d2 :: d3 :: rest) =
      Except.ok
        (parseCanFrame (hexValue [d1, d2, d3])
          (((digitPairs rest).take 8).map hexValue)) := by
    simp only [parseCanFrameLine, hread]
  refine ⟨hread, hlt, ?_, hparse, ?_⟩
  · rw [List.length_map, List.length_take, digitPairs_length]
    exact Nat.min_comm _ _
  · intro f errors hf
    rw [hparse] at hf
    simp only [Except.ok.injEq] at hf
    exact parseCanFrame_ID_data hf

/-- Instances of the reading step: the line `7E803123456` gives identifier `0x7E8`
and data `03 12 34 56`; behind the eighth byte the line `1FF0011..99A` is cut. -/
theorem readFrame_of_digits_witness :
    readFrame "7E803123456".toList = Except.ok (0x7E8, [0x03, 0x12, 0x34, 0x56]) ∧
    readFrame "1FF00112233445566778899A".toList =
      Except.ok (0x1FF, [0x00, 0x11, 0x22, 0x33, 0x44, 0x55, 0x66, 0x77]) :=
  ⟨(readFrame_of_digits '7' 'E' '8' "03123456".toList (by decide) (by decide)).1,
    (readFrame_of_digits '1' 'F' 'F' "00112233445566778899A".toList
      (by decide) (by decide)).1⟩

/-- On a hexadecimal line the whole of `parseCanFrame` returns a frame with the
identifier and data read, unless the data read is a single byte whose high nibble
is 1, the one shape on which the First Frame branch reads outside the data. -/
theorem parseCanFrameLine_of_digits (d1 d2 d3 : Char) (rest : List Char)
    (hid : ∀ c ∈ [d1, d2, d3], (hexDigit c).isSome = true)
    (hrest : ∀ c ∈ rest, (hexDigit c).isSome = true)
    (hshape : ¬ ∃ pci, ((digitPairs rest).take 8).map hexValue = [pci] ∧ pci >>> 4 = 1) :
    ∃ (f : CanFrame) (errors : List Output),
      parseCanFrameLine (d1 :: d2 :: d3 :: rest) = Except.ok (some (f, errors)) ∧
      f.ID = hexValue [d1, d2, d3] ∧ f.data = ((digitPairs rest).take 8).map hexValue := by
  obtain ⟨_, _, _, hparse, hfields⟩ := readFrame_of_digits d1 d2 d3 rest hid hrest
  cases hres : parseCanFrame (hexValue [d1, d2, d3]) (((digitPairs rest).take 8).map hexValue) with
  | none => exact absurd ((parseCanFrame_eq_none_iff _ _).mp hres) hshape
  | some r =>
    obtain ⟨f, errors⟩ := r
    have hline : parseCanFrameLine (d1 :: d2 :: d3 :: rest) = Except.ok (some (f, errors)) := by
      rw [hparse, hres]
    exact ⟨f, errors, hline, hfields f errors hline⟩

/-- C15, the code at the failing input: the line `1FF1F` is made of three
hexadecimal digits followed by two more.  The reading step reads the identifier
`0x1FF` and the data byte `1F`, as the claim says, but the decoder then takes the
First Frame branch and reads `data[1]` outside the one-byte data, so
`parseCanFrame` yields no frame that carries them. -/
theorem hex_line_yields_no_frame :
    (∀ c ∈ "1FF1F".toList, (hexDigit c).isSome = true) ∧
    readFrame "1FF1F".toList = Except.ok (0x1FF, [0x1F]) ∧
    parseCanFrame 0x1FF [0x1F] = none ∧
    parseCanFrameLine "1FF1F".toList = Except.ok none :=
  ⟨by decide, rfl, by decide, rfl⟩

/-! ## Lines that are not hexadecimal -/

theorem readDigits_bound : ∀ (s : List Char) (acc count : Nat),
    (readDigits s acc count).1 < (acc + 1) * 16 ^ s.length
  | [], acc, count => by simp [readDigits]
  | c :: cs, acc, count => by
    cases h : hexDigit c with
    | none =>
      simp only [readDigits, h, List.length_cons]
      have hpos : 0 < 16 ^ (cs.length + 1) := Nat.pow_pos (by decide)
      calc acc < acc + 1 := Nat.lt_succ_self acc
        _ = (acc + 1) * 1 := (Nat.mul_one _).symm
        _ ≤ (acc + 1) * 16 ^ (cs.length + 1) := Nat.mul_le_mul_left _ hpos
    | some v =>
      have hv := (hexDigit_some h).1
      simp only [readDigits, h, List.length_cons]
      have ih := readDigits_bound cs (acc * 16 + v) (count + 1)
      have hle : (acc * 16 + v + 1) * 16 ^ cs.length ≤ (acc + 1) * 16 ^ (cs.length + 1) := by
        rw [Nat.pow_succ, Nat.mul_comm (16 ^ cs.length) 16, ← Nat.mul_assoc]
        apply Nat.mul_le_mul_right
        omega
      exact Nat.lt_of_lt_of_le ih hle

theorem readSign_length (s : List Char) : (readSign s).2.length ≤ s.length := by
  cases s with
  | nil => simp [readSign]
  | cons c cs =>
    simp only [readSign]
    split
    · simp
    · split <;> simp

theorem skipHexMark_length (s : List Char) : (skipHexMark s).length ≤ s.length := by
  unfold skipHexMark
  split
  · split <;> simp
  · exact Nat.le_refl _

theorem dropWhile_length (p : Char → Bool) :
    ∀ (s : List Char), (s.dropWhile p).length ≤ s.length
  | [] => by simp
  | c :: cs => by
    simp only [List.dropWhile]
    split
    · have := dropWhile_length p cs
      simp only [List.length_cons]
      omega
    · exact Nat.le_refl _

/-- On a field of at most three characters `stoul` either converts or throws
`std::invalid_argument`; the range of `unsigned long` is never left. -/
theorem stoul_short (s : List Char) (h : s.length ≤ 3) :
    stoul s = Except.error Exception.invalid_argument ∨ ∃ v, stoul s = Except.ok v := by
  have hlen : (skipHexMark (readSign (s.dropWhile isSpace)).2).length ≤ 3 :=
    Nat.le_trans (skipHexMark_length _)
      (Nat.le_trans (readSign_length _) (Nat.le_trans (dropWhile_length _ s) h))
  have hb := readDigits_bound (skipHexMark (readSign (s.dropWhile isSpace)).2) 0 0
  have hpow : 16 ^ (skipHexMark (readSign (s.dropWhile isSpace)).2).length ≤ 16 ^ 3 :=
    Nat.pow_le_pow_right (by decide) hlen
  have hsmall : (readDigits (skipHexMark (readSign (s.dropWhile isSpace)).2) 0 0).1 < 2 ^ 64 := by
    have h3 : (16 : Nat) ^ 3 < 2 ^ 64 := by decide
    omega
  unfold stoul
  simp only
  split
  · exact Or.inl rfl
  · split
    · omega
    · exact Or.inr ⟨_, rfl⟩

/-- A field without a leading hexadecimal digit makes `stoul` throw
`std::invalid_argument`. -/
theorem stoul_without_digit (s : List Char) (h : hasLeadingHexDigit s = false) :
    stoul s = Except.error Exception.invalid_argument := by
  unfold hasLeadingHexDigit at h
  unfold stoul
  simp only
  match ht : (readSign (s.dropWhile isSpace)).2 with
  | [] => simp [skipHexMark, readDigits]
  | c :: cs =>
    rw [ht] at h
    simp only at h
    have hnone : hexDigit c = none := by
      cases hc : hexDigit c with
      | none => rfl
      | some v => rw [hc] at h; simp at h
    have h48 : ¬ (c.toNat = 48) := by
      intro h0
      have : hexDigit c = some 0 := by
        unfold hexDigit
        simp [h0]
      rw [hnone] at this
      simp at this
    have hskip : skipHexMark (c :: cs) = c :: cs := by
      match cs with
      | [] => rfl
      | [_] => rfl
      | cx :: ch :: tl => simp [skipHexMark, h48]
    simp [hskip, readDigits, hnone]

theorem hexByte_short (s : List Char) (i : Nat) (h : ¬ (i > s.length)) :
    hexByte s i = Except.error Exception.invalid_argument ∨ ∃ b, hexByte s i = Except.ok b := by
  have hlen : ((s.drop i).take 2).length ≤ 3 := by
    rw [List.length_take]
    omega
  rcases stoul_short ((s.drop i).take 2) hlen with he | ⟨v, hv⟩
  · left
    simp [hexByte, h, he]
  · right
    exact ⟨v % 256, by simp [hexByte, h, hv]⟩

theorem readData_of_bad_field (s : List Char) :
    ∀ (fuel i : Nat) (data : List Nat), data.length + fuel = 8 →
      (∃ field ∈ (digitPairs (s.drop i)).take fuel, hasLeadingHexDigit field = false) →
      readData s fuel i data = Except.error Exception.invalid_argument := by
  intro fuel
  induction fuel with
  | zero =>
    intro i data _ hbad
    obtain ⟨field, hmem, _⟩ := hbad
    simp at hmem
  | succ fuel ih =>
    intro i data hlen hbad
    obtain ⟨field, hmem, hfield⟩ := hbad
    match hd : s.drop i with
    | [] =>
      rw [hd] at hmem
      simp [digitPairs] at hmem
    | [c] =>
      rw [hd] at hmem
      simp [digitPairs] at hmem
    | c1 :: c2 :: tl =>
      obtain ⟨hi, hpos, htl⟩ := drop_pair hd
      rw [hd] at hmem
      simp only [digitPairs, List.take_succ_cons, List.mem_cons] at hmem
      have htake : (s.drop i).take 2 = [c1, c2] := by rw [hd]; rfl
      rcases hexByte_short s i hpos with he | ⟨b, hb⟩
      · simp [readData, hi, he]
      · have hhead : field ≠ [c1, c2] := by
          intro heq
          have hthrow := stoul_without_digit [c1, c2] (by rw [← heq]; exact hfield)
          simp [hexByte, hpos, htake, hthrow] at hb
        have htailmem : field ∈ (digitPairs tl).take fuel := by
          rcases hmem with h | h
          · exact absurd h hhead
          · exact h
        have hfuel : fuel ≠ 0 := by
          intro h0
          rw [h0] at htailmem
          simp at htailmem
        have h8 : ¬ ((data ++ [b]).length = 8) := by
          simp only [List.length_append, List.length_singleton]
          omega
        have hnext := ih (i + 2) (data ++ [b])
          (by simp only [List.length_append, List.length_singleton]; omega)
          ⟨field, by rw [htl]; exact htailmem, hfield⟩
        simp only [readData, hi, if_true, hb, h8, if_false, hnext]

theorem readFrame_of_bad_field (line : List Char)
    (h : hasLeadingHexDigit (line.take 3) = false ∨
      ∃ field ∈ (digitPairs (line.drop 3)).take 8, hasLeadingHexDigit field = false) :
    readFrame line = Except.error Exception.invalid_argument := by
  have hlen : (line.take 3).length ≤ 3 := by
    rw [List.length_take]
    omega
  rcases stoul_short (line.take 3) hlen with he | ⟨v, hv⟩
  · simp [readFrame, he]
  · rcases h with h | h
    · rw [stoul_without_digit _ h] at hv
      simp at hv
    · simp [readFrame, hv, readData_of_bad_field line 8 3 [] rfl h]

/-- C16, as amended: for every input line in which the identifier field (the
first three characters) or one of the two-character data fields read by the loop
(the first eight pairs behind the identifier) does not begin, after optional white
space and an optional sign, with a hexadecimal digit, `parseCanFrame` and so
`proceedFrame` throw `std::invalid_argument` instead of producing a frame, and
the loop of `main` goes on with the table unchanged and no output of the parser. -/
theorem malformed_field_throws (ms : MessagesStream) (line : List Char)
    (h : hasLeadingHexDigit (line.take 3) = false ∨
      ∃ field ∈ (digitPairs (line.drop 3)).take 8, hasLeadingHexDigit field = false) :
    parseCanFrameLine line = Except.error Exception.invalid_argument ∧
    proceedFrameLine ms line = Except.error Exception.invalid_argument ∧
    mainLoop ms [line] = some (ms, []) := by
  have hread := readFrame_of_bad_field line h
  refine ⟨by simp [parseCanFrameLine, hread], by simp [proceedFrameLine, hread], ?_⟩
  by_cases hemp : line.isEmpty = true
  · simp [mainLoop, hemp]
  · simp [mainLoop, hemp, proceedFrameLine, hread]

/-- C16, instance of the amended statement: in the line `7E803G1` the second data
field `G1` begins with a character that is not a hexadecimal digit. -/
theorem malformed_field_throws_witness :
    (∃ field ∈ (digitPairs ("7E803G1".toList.drop 3)).take 8,
      hasLeadingHexDigit field = false) ∧
    parseCanFrameLine "7E803G1".toList = Except.error Exception.invalid_argument ∧
    proceedFrameLine sampleStream "7E803G1".toList =
      Except.error Exception.invalid_argument ∧
    mainLoop sampleStream ["7E803G1".toList] = some (sampleStream, []) :=
  have hbad : ∃ field ∈ (digitPairs ("7E803G1".toList.drop 3)).take 8,
      hasLeadingHexDigit field = false := ⟨"G1".toList, by decide, by decide⟩
  ⟨hbad, malformed_field_throws sampleStream "7E803G1".toList (Or.inr hbad)⟩

/-- C16 fails as stated: the lines `7E8011G` and `7E8 0312` contain a character
that is not a hexadecimal digit (`G`, a space) among those consumed as data-byte
digits, yet no exception is thrown: `stoul` ignores what follows a leading digit
and skips leading white space, so frames are produced and messages delivered. -/
theorem non_hex_character_accepted :
    readFrame "7E8011G".toList = Except.ok (0x7E8, [0x01, 0x01]) ∧
    readFrame "7E8 0312".toList = Except.ok (0x7E8, [0x00, 0x31]) ∧
    observeLines ["7E8011G"] 0x7E8 = some (none, [Output.proceedMessage [0x01] 0x7E8]) ∧
    observeLines ["7E8 0312"] 0x7E8 = some (none, [Output.proceedMessage [] 0x7E8]) :=
  ⟨rfl, rfl, by decide, by decide⟩

end CANMessageParser
